import Mathlib

/-!
Verification of the media-import pipeline (Scanner / Planner / Transfer Engine)
of the ImportGaleryIphone repository.

The Python sources are shallowly embedded:
  - text is modelled as `List Char` (`Str`); Python `str` methods used by the
    code (`re.sub` over fixed character classes, `strip`, slicing, `replace`,
    `split`, `upper`/`lower` on ASCII data) are translated below;
  - `pathlib.Path` values are modelled structurally as lists of path segments
    (`PathT`); `Path.stem` / `Path.suffix` act on the last segment via the
    CPython rule (last `'.'` at an index `i` with `0 < i < len - 1`);
  - the destination filesystem is an association list from paths to file
    records, and the transfer loop of `execute_transfer.py` is a step machine
    over that state driven by an environment describing transport behaviour.
-/

set_option autoImplicit false

namespace ImportGalery

/-- Text is a list of characters; Python string indices become list indices. -/
abbrev Str := List Char

/-- Path values are lists of segments, mirroring `pathlib.PurePath.parts`. -/
abbrev PathT := List Str

/-! ## domain/rules.py : module constants (lines 7-16) -/

/-- Characters matched by `WINDOWS_INVALID_RE = re.compile(r'[<>:"/\\|?*]')`. -/
def isWinInvalid (c : Char) : Bool :=
  c = '<' || c = '>' || c = ':' || c = '"' || c = '/' || c = '\\' || c = '|' || c = '?' || c = '*'

/-- Characters matched by `WINDOWS_CONTROL_RE = re.compile(r'[\x00-\x1f]')`. -/
def isWinControl (c : Char) : Bool :=
  c.toNat ≤ 31

/-- The `RESERVED_NAMES` set of `domain/rules.py` (lines 9-13). -/
def RESERVED_NAMES : List Str :=
  ["CON".data, "PRN".data, "AUX".data, "NUL".data,
   "COM1".data, "COM2".data, "COM3".data, "COM4".data, "COM5".data,
   "COM6".data, "COM7".data, "COM8".data, "COM9".data,
   "LPT1".data, "LPT2".data, "LPT3".data, "LPT4".data, "LPT5".data,
   "LPT6".data, "LPT7".data, "LPT8".data, "LPT9".data]

/-- `MAX_FILE_NAME = 150` (rules.py line 15). -/
def MAX_FILE_NAME : ℕ := 150

/-- `MAX_FOLDER_NAME = 60` (rules.py line 16). -/
def MAX_FOLDER_NAME : ℕ := 60

/-! ## Python string primitives used by rules.py -/

/-- Python `str.strip(chars)` for a decidable character class: remove the
matching characters from both ends. -/
def pyStripP (p : Char → Bool) (s : Str) : Str :=
  ((s.dropWhile p).reverse.dropWhile p).reverse

/-- The character class of `str.strip(' .')`. -/
def isStripChar (c : Char) : Bool :=
  c = ' ' || c = '.'

/-- Python `name.strip(' .')`. -/
def pyStrip (s : Str) : Str :=
  pyStripP isStripChar s

/-- Python `str.upper()`; the repository only compares against the ASCII
`RESERVED_NAMES`, so ASCII upcasing (`Char.toUpper`) is the faithful model. -/
def pyUpper (s : Str) : Str :=
  s.map Char.toUpper

/-- Python `str.lower()` on the ASCII range (`Char.toLower`). -/
def pyLower (s : Str) : Str :=
  s.map Char.toLower

/-- The index produced by Python `name.rfind('.')`, as an `Option`
(`none` for the `-1` result). -/
def pyDotIdx (s : Str) : Option ℕ :=
  match s.reverse.findIdx? (fun c => c = '.') with
  | none => none
  | some ir => some (s.length - 1 - ir)

/-- CPython `PurePath.stem` on a single path component: with `i = rfind('.')`,
the component is split only when `0 < i < len - 1`. -/
def pyStem (s : Str) : Str :=
  match pyDotIdx s with
  | none => s
  | some i => if 0 < i ∧ i < s.length - 1 then s.take i else s

/-- CPython `PurePath.suffix` on a single path component. -/
def pySuffix (s : Str) : Str :=
  match pyDotIdx s with
  | none => []
  | some i => if 0 < i ∧ i < s.length - 1 then s.drop i else []

/-- Python slice `s[-m:]` (for `m = 0` this is `s[0:]`, the whole string). -/
def pyTakeLast (s : Str) (m : ℕ) : Str :=
  if m = 0 then s else s.drop (s.length - m)

/-! ## domain/rules.py : truncate_filename (lines 19-29) -/

/-- `truncate_filename(name, max_length)` of rules.py. The Python default for
`max_length` is `MAX_FILE_NAME`; call sites pass it explicitly here. -/
def truncate_filename (name : Str) (max_length : ℕ) : Str :=
  if name.length ≤ max_length then name
  else
    let ext := pySuffix name
    if ext = [] then name.take max_length
    else if max_length ≤ ext.length then pyTakeLast ext max_length
    else (pyStem name).take (max_length - ext.length) ++ ext

/-! ## domain/rules.py : sanitize_filename (lines 32-55) -/

/-- The reserved-device-name check of sanitize_filename (rules.py lines 53-54):
`if name.upper() in RESERVED_NAMES: name = f'_{name}'`. -/
def applyReserved (name : Str) : Str :=
  if pyUpper name ∈ RESERVED_NAMES then '_' :: name else name

/-- `sanitize_filename(name, fallback, max_length, preserve_extension)` of
rules.py. `max_length = none` models Python `None`; the Python guard
`if max_length and len(name) > max_length` is falsy for both `None` and `0`. -/
def sanitize_filename (name fallback : Str) (max_length : Option ℕ)
    (preserve_extension : Bool) : Str :=
  if name = [] then fallback
  else
    let n1 := name.map (fun c => if isWinControl c then '_' else c)
    let n2 := n1.map (fun c => if isWinInvalid c then '_' else c)
    let n3 := pyStrip n2
    if n3 = [] then fallback
    else
      match max_length with
      | some m =>
        if m ≠ 0 ∧ m < n3.length then
          let t := pyStrip (if preserve_extension then truncate_filename n3 m else n3.take m)
          if t = [] then fallback else applyReserved t
        else applyReserved n3
      | none => applyReserved n3

/-! ## Decimal rendering (Python `str(n)` / `strftime` zero padding)

`Nat.digits` is defined by well-founded recursion and does not reduce inside
`decide`, so the decimal rendering is given fuel (any fuel at least `n`
produces the digits of `n`, see `natReprAux_stable` below). -/

/-- Fuelled big-endian decimal digits of a positive number. -/
def natReprAux : ℕ → ℕ → Str
  | _, 0 => []
  | 0, _ + 1 => []
  | f + 1, n + 1 => natReprAux f ((n + 1) / 10) ++ [Nat.digitChar ((n + 1) % 10)]

/-- Python `str(n)` for a natural number. -/
def natRepr (n : ℕ) : Str :=
  if n = 0 then "0".data else natReprAux n n

/-- Zero padding as done by `strftime('%Y')`, `%m`, `%d`, `%H`, `%M`, `%S` and
the `f'{week:02d}'` format of rules.py. -/
def padZeros (w : ℕ) (s : Str) : Str :=
  List.replicate (w - s.length) '0' ++ s

/-- Decimal parse, a left inverse of `natRepr` used to prove it injective. -/
def parseDigits (s : Str) : ℕ :=
  s.foldl (fun acc c => acc * 10 + (c.toNat - 48)) 0

/-! ## Naive datetimes

`format_datetime` first converts an aware datetime to a naive local one; the
model works with naive datetimes directly (the pipeline never constructs an
aware one). -/

/-- A naive `datetime.datetime` value. -/
structure DateTimeV where
  year : ℕ
  month : ℕ
  day : ℕ
  hour : ℕ
  minute : ℕ
  second : ℕ
deriving DecidableEq, Repr

/-- `format_datetime` of rules.py (lines 58-61): `dt.strftime('%Y-%m-%d_%H-%M-%S')`. -/
def format_datetime (dt : DateTimeV) : Str :=
  padZeros 4 (natRepr dt.year) ++ ('-' :: padZeros 2 (natRepr dt.month))
    ++ ('-' :: padZeros 2 (natRepr dt.day)) ++ ('_' :: padZeros 2 (natRepr dt.hour))
    ++ ('-' :: padZeros 2 (natRepr dt.minute)) ++ ('-' :: padZeros 2 (natRepr dt.second))

/-! ## ISO calendar week (`created.isocalendar().week` in build_tokens) -/

/-- Gregorian leap-year test. -/
def isLeapYear (y : ℕ) : Bool :=
  (y % 4 = 0 && y % 100 ≠ 0) || y % 400 = 0

/-- Days in the year strictly before month `m` (1-based). -/
def cumMonthDays (leap : Bool) (m : ℕ) : ℕ :=
  [0, 31, 59, 90, 120, 151, 181, 212, 243, 273, 304, 334].getD (m - 1) 0
    + (if leap && decide (2 < m) then 1 else 0)

/-- Ordinal day of the year (1-based). -/
def dayOfYear (y m d : ℕ) : ℕ :=
  cumMonthDays (isLeapYear y) m + d

/-- Proleptic-Gregorian ordinal of a date (0001-01-01 is day 1). -/
def ordinalOf (y m d : ℕ) : ℕ :=
  (365 * (y - 1) + (y - 1) / 4 - (y - 1) / 100) + (y - 1) / 400 + dayOfYear y m d

/-- ISO weekday, Monday = 1 .. Sunday = 7. -/
def isoWeekday (y m d : ℕ) : ℕ :=
  (ordinalOf y m d - 1) % 7 + 1

/-- Helper of the ISO 53-week-year rule. -/
def isoP (y : ℕ) : ℕ :=
  ((y + y / 4) - y / 100 + y / 400) % 7

/-- Number of ISO weeks in year `y` (52 or 53). -/
def isoWeeksInYear (y : ℕ) : ℕ :=
  if isoP y = 4 || isoP (y - 1) = 3 then 53 else 52

/-- The ISO-8601 week number returned by `datetime.isocalendar().week`. -/
def isoWeek (y m d : ℕ) : ℕ :=
  let doy := dayOfYear y m d
  let wd := isoWeekday y m d
  let w := (doy + 10 - wd) / 7
  if w = 0 then isoWeeksInYear (y - 1)
  else if isoWeeksInYear y < w then 1
  else w

/-! ## domain/rules.py : build_base_filename, build_tokens, templates -/

/-- `build_base_filename(original_name, created)` of rules.py (lines 64-68). -/
def build_base_filename (original_name : Str) (created : Option DateTimeV) : Str :=
  let base := if original_name ≠ [] then pyStem original_name else "original".data
  let base := sanitize_filename base ("original".data) none false
  let pfx := match created with
    | some dt => format_datetime dt
    | none => "unknown_date".data
  pfx ++ ('_' :: base)

/-- `build_tokens(created, device_name, media_type, type_label)` of rules.py
(lines 71-94); the association list keeps the Python dict insertion order
YYYY, MM, DD, WW, DEVICE, TYPE. -/
def build_tokens (created : Option DateTimeV) (device_name media_type type_label : Str) :
    List (Str × Str) :=
  let ymdw : Str × Str × Str × Str :=
    match created with
    | some dt =>
        (padZeros 4 (natRepr dt.year), padZeros 2 (natRepr dt.month),
         padZeros 2 (natRepr dt.day), padZeros 2 (natRepr (isoWeek dt.year dt.month dt.day)))
    | none => ("unknown".data, "unknown".data, "unknown".data, "unknown".data)
  [("YYYY".data, sanitize_filename ymdw.1 ("unknown".data) none false),
   ("MM".data, sanitize_filename ymdw.2.1 ("unknown".data) none false),
   ("DD".data, sanitize_filename ymdw.2.2.1 ("unknown".data) none false),
   ("WW".data, sanitize_filename ymdw.2.2.2 ("unknown".data) none false),
   ("DEVICE".data,
     sanitize_filename (if device_name ≠ [] then device_name else "Device".data)
       ("Device".data) none false),
   ("TYPE".data,
     sanitize_filename
       (if type_label ≠ [] then type_label
        else if media_type ≠ [] then media_type else "Media".data)
       ("Media".data) none false)]

/-- Fuelled scanner for Python `text.replace(pat, repl)`; fuel at least the
length of the remaining string is always sufficient since each step consumes
at least one character. -/
def replaceAllAux (pat repl : Str) : ℕ → Str → Str
  | _, [] => []
  | 0, s => s
  | f + 1, c :: rest =>
    if pat ≠ [] ∧ pat.isPrefixOf (c :: rest) then
      repl ++ replaceAllAux pat repl f ((c :: rest).drop pat.length)
    else c :: replaceAllAux pat repl f rest

/-- Python `text.replace(pat, repl)`: left-to-right, non-overlapping. -/
def replaceAll (pat repl : Str) (s : Str) : Str :=
  replaceAllAux pat repl s.length s

/-- Python `text.split(sep)` for a single-character separator. -/
def pySplitOn (sep : Char) : Str → List Str
  | [] => [[]]
  | c :: rest =>
    match pySplitOn sep rest with
    | [] => [[c]]
    | h :: t => if c = sep then [] :: h :: t else (c :: h) :: t

/-- The token-substitution loop of apply_template (rules.py lines 100-102):
`for key, value in tokens.items(): text = text.replace('{'+key+'}', value)`. -/
def replTokens (tokens : List (Str × Str)) (t : Str) : Str :=
  tokens.foldl (fun s kv => replaceAll ('{' :: (kv.1 ++ ['}'])) kv.2 s) t

/-- `apply_template(template, tokens)` of rules.py (lines 97-107), returning
the `parts` of the produced `Path`. -/
def apply_template (template : Str) (tokens : List (Str × Str)) : List Str :=
  if template = [] then []
  else
    let text := replTokens tokens template
    let text2 := text.map (fun c => if c = '\\' then '/' else c)
    let text3 := pyStripP (fun c => c = '/') text2
    if text3 = [] then []
    else
      ((pySplitOn '/' text3).filter (fun p => p ≠ [])).map
        (fun p => sanitize_filename p ("folder".data) (some MAX_FOLDER_NAME) false)

/-- `preset_to_template(preset_key)` of rules.py (lines 110-119). -/
def preset_to_template (preset_key : Str) : Str :=
  if preset_key = "A".data then "{YYYY}/{MM}/".data
  else if preset_key = "B".data then "{YYYY}/{MM}/{DD}/".data
  else if preset_key = "C".data then "Import_iPhone/".data
  else if preset_key = "D".data then "{TYPE}/{YYYY}/{MM}/".data
  else if preset_key = "E".data then "{YYYY}/Week_{WW}/".data
  else if preset_key = "F".data then "{DEVICE}/{YYYY}/{MM}/".data
  else "{YYYY}/{MM}/".data

/-! ## domain/models.py -/

/-- `PHOTO_EXTS` of models.py (line 9). -/
def PHOTO_EXTS : List Str :=
  [".jpg".data, ".jpeg".data, ".heic".data, ".heif".data, ".png".data,
   ".tif".data, ".tiff".data, ".gif".data, ".dng".data]

/-- `VIDEO_EXTS` of models.py (line 10). -/
def VIDEO_EXTS : List Str :=
  [".mov".data, ".mp4".data, ".m4v".data, ".avi".data, ".3gp".data]

/-- `DeviceInfo` of models.py; the optional descriptive fields are kept for
completeness though the pipeline logic only reads `id` and `name`. -/
structure DeviceInfoV where
  id : Str
  name : Str
  manufacturer : Option Str := none
  model : Option Str := none
  description : Option Str := none
deriving DecidableEq, Repr

/-- `MediaItem` of models.py (lines 38-63). -/
structure MediaItemV where
  device_id : Str
  object_id : Str
  name : Str
  extension : Str
  size : ℕ
  created : Option DateTimeV
  device_path : Str
  content_type : Str
deriving DecidableEq, Repr

/-- `MediaItem.base_name`: `Path(self.name).stem`. -/
def MediaItemV.base_name (i : MediaItemV) : Str :=
  pyStem i.name

/-- `MediaItem.is_photo`: `self.extension.lower() in PHOTO_EXTS`. -/
def MediaItemV.is_photo (i : MediaItemV) : Bool :=
  decide (pyLower i.extension ∈ PHOTO_EXTS)

/-- `MediaItem.is_video`: `self.extension.lower() in VIDEO_EXTS`. -/
def MediaItemV.is_video (i : MediaItemV) : Bool :=
  decide (pyLower i.extension ∈ VIDEO_EXTS)

/-- `MediaItem.media_type`: `'photo' | 'video' | 'other'`. -/
def MediaItemV.media_type (i : MediaItemV) : Str :=
  if i.is_photo then "photo".data else if i.is_video then "video".data else "other".data

/-- `ImportOptions` of models.py. -/
structure ImportOptionsV where
  destination : PathT
  structure_preset : Str
  template : Str
  keep_live : Bool
  create_compat : Bool
  language : Str
deriving DecidableEq, Repr

/-- `PlanItem` of models.py; `temp_abs_path` is a placeholder (`Path()`) until
transfer time and `compat_tasks` is unused by the pipeline, so neither is
modelled. `dest_rel_parts` are the segments whose '/'-join is `dest_rel_path`. -/
structure PlanItemV where
  item : MediaItemV
  dest_rel_parts : PathT
  dest_abs_path : PathT
deriving DecidableEq, Repr

/-- `ImportPlan` of models.py. -/
structure ImportPlanV where
  items : List PlanItemV
  preview_paths : List Str
  total_files : ℕ
  total_size : ℕ
deriving DecidableEq, Repr

/-- `Path.as_posix()` over structural path segments. -/
def joinPosix (parts : PathT) : Str :=
  match parts with
  | [] => []
  | p :: rest => rest.foldl (fun acc q => acc ++ ('/' :: q)) p

/-! ## application/build_plan.py -/

/-- Lookup in an association list modelling a Python dict (first match; the
dict-building operations below keep keys unique). -/
def dLookup {V : Type} (d : List (Str × V)) (k : Str) : Option V :=
  (d.find? (fun kv => decide (kv.1 = k))).map (fun kv => kv.2)

/-- Python `dict.setdefault(k, []).append(v)`: extend the entry in place,
keeping the dict's insertion order, or append a new entry at the end. -/
def dSetAppend (d : List (Str × List MediaItemV)) (k : Str) (v : MediaItemV) :
    List (Str × List MediaItemV) :=
  match d with
  | [] => [(k, [v])]
  | (k0, vs) :: rest =>
    if k0 = k then (k0, vs ++ [v]) :: rest else (k0, vs) :: dSetAppend rest k v

/-- Python `d[k] = v` on a dict: overwrite in place or append a new entry. -/
def dSet {V : Type} (d : List (Str × V)) (k : Str) (v : V) : List (Str × V) :=
  match d with
  | [] => [(k, v)]
  | (k0, v0) :: rest =>
    if k0 = k then (k0, v) :: rest else (k0, v0) :: dSet rest k v

/-- `TYPE_LABELS` of build_plan.py (lines 9-13). -/
def TYPE_LABELS : List (Str × List (Str × Str)) :=
  [("es".data, [("photo".data, "Fotos".data), ("video".data, "Vídeos".data),
                ("other".data, "Media".data)]),
   ("en".data, [("photo".data, "Photos".data), ("video".data, "Videos".data),
                ("other".data, "Media".data)]),
   ("ca".data, [("photo".data, "Fotos".data), ("video".data, "Vídeos".data),
                ("other".data, "Media".data)])]

/-- `_type_label(media_type, language)` of build_plan.py (lines 16-18). -/
def _type_label (media_type language : Str) : Str :=
  let labels := (dLookup TYPE_LABELS language).getD
    ((dLookup TYPE_LABELS ("en".data)).getD [])
  (dLookup labels media_type).getD ((dLookup labels ("other".data)).getD [])

/-- Sort-key datetime component: `i.created or 0`. Distinct cases are only
ever compared against the same case (the first key component separates them),
so the `None` case may use any fixed value. -/
def dtKey : Option DateTimeV → List ℕ
  | none => []
  | some dt => [dt.year, dt.month, dt.day, dt.hour, dt.minute, dt.second]

/-- The lexicographic sort key `(i.created is None, i.created or 0,
i.name.lower())` of `_sorted_items` (build_plan.py lines 21-29). -/
abbrev SortKeyT := Bool ×ₗ (List ℕ ×ₗ List Char)

/-- Sort key of one item. -/
def sortKey (i : MediaItemV) : SortKeyT :=
  toLex (i.created.isNone, toLex (dtKey i.created, pyLower i.name))

/-- The item ordering used by `_sorted_items`. -/
def itemLE (a b : MediaItemV) : Prop :=
  sortKey a ≤ sortKey b

instance : DecidableRel itemLE := fun a b => inferInstanceAs (Decidable (sortKey a ≤ sortKey b))

instance : IsTotal MediaItemV itemLE := ⟨fun a b => le_total (sortKey a) (sortKey b)⟩

instance : IsTrans MediaItemV itemLE := ⟨fun _ _ _ hab hbc => le_trans hab hbc⟩

/-- `_sorted_items(items)` of build_plan.py. CPython's `sorted` is the unique
stable sort with respect to the total preorder `itemLE`; `List.insertionSort`
is that stable sort. -/
def _sorted_items (items : List MediaItemV) : List MediaItemV :=
  List.insertionSort itemLE items

/-- The `preferred` timestamp of a Live-Photo group (build_plan.py lines
46-48): the first photo member with a timestamp, else the first member with a
timestamp, else `None`. -/
def preferredOf (group : List MediaItemV) : Option DateTimeV :=
  match group.find? (fun i => i.is_photo && i.created.isSome) with
  | some i => i.created
  | none =>
    match group.find? (fun i => i.created.isSome) with
    | some i => i.created
    | none => none

/-- Does a group qualify as a Live-Photo pair (build_plan.py lines 42-45)? -/
def groupQualifies (group : List MediaItemV) : Bool :=
  group.any (fun i => i.is_photo) && group.any (fun i => i.is_video)

/-- The `by_base` grouping dict of build_plan.py (lines 37-40), built over the
sorted items. -/
def byBase (items_list : List MediaItemV) : List (Str × List MediaItemV) :=
  items_list.foldl (fun d i => dSetAppend d (pyLower i.base_name) i) []

/-- The `group_date` dict of build_plan.py (lines 35-50). -/
def buildGroupDate (items_list : List MediaItemV) : List (Str × Option DateTimeV) :=
  (byBase items_list).foldl
    (fun gd kg =>
      if groupQualifies kg.2 then
        kg.2.foldl (fun gd2 i => dSet gd2 i.object_id (preferredOf kg.2)) gd
      else gd)
    []

/-- The file name `f'{base}{item.extension}'` built at build_plan.py line 71. -/
def planFileNameOf (item : MediaItemV) (created : Option DateTimeV) : Str :=
  build_base_filename item.name created ++ item.extension

/-- One iteration of the planning loop (build_plan.py lines 60-82). -/
def planItemFor (device : DeviceInfoV) (options : ImportOptionsV) (template : Str)
    (group_date : List (Str × Option DateTimeV)) (item : MediaItemV) : PlanItemV :=
  let created := (dLookup group_date item.object_id).getD item.created
  let tl := _type_label item.media_type options.language
  let tokens := build_tokens created device.name item.media_type tl
  let folder := apply_template template tokens
  let filename := planFileNameOf item created
  let rel := folder ++ [filename]
  { item := item, dest_rel_parts := rel, dest_abs_path := options.destination ++ rel }

/-- The template resolution of build_plan.py (lines 52-55). -/
def activeTemplate (options : ImportOptionsV) : Str :=
  if options.structure_preset = "ADV".data then options.template
  else preset_to_template options.structure_preset

/-- `build_plan(device, items, options)` of build_plan.py (lines 32-90). -/
def build_plan (device : DeviceInfoV) (items : List MediaItemV) (options : ImportOptionsV) :
    ImportPlanV :=
  let items_list := _sorted_items items
  let group_date := if options.keep_live then buildGroupDate items_list else []
  let template := activeTemplate options
  let plan_items := items_list.map (planItemFor device options template group_date)
  { items := plan_items,
    preview_paths := (plan_items.take 20).map (fun p => joinPosix p.dest_rel_parts),
    total_files := plan_items.length,
    total_size := (items_list.map (fun i => i.size)).sum }

/-! ## Destination filesystem model

The destination tree is an association list from structural paths to file
records. `complete` is false exactly while a file's byte stream has not been
fully written (a "partially-written file"). Directories are not modelled:
`mkdir` calls only create containers and no claim concerns them. -/

/-- A file on the destination filesystem. -/
structure FileRec where
  size : ℕ
  complete : Bool
deriving DecidableEq, Repr

/-- The destination filesystem. -/
abbrev FS := List (PathT × FileRec)

/-- `path.exists()` / `path.stat()`: the record at a path, if any. -/
def fsGet (fs : FS) (p : PathT) : Option FileRec :=
  (fs.find? (fun e => decide (e.1 = p))).map (fun e => e.2)

/-- `path.unlink(missing_ok=True)`. -/
def fsRemove (fs : FS) (p : PathT) : FS :=
  fs.filter (fun e => decide (e.1 ≠ p))

/-- Create or overwrite the file at `p`. -/
def fsSet (fs : FS) (p : PathT) (r : FileRec) : FS :=
  (p, r) :: fsRemove fs p

/-! ## domain/rules.py : ensure_unique_path (lines 122-133)

The Python function probes the real filesystem with `path.exists()`; the
embedding takes the filesystem as an explicit argument. The `while True`
counter loop is given fuel `fs.length + 1`, which always suffices (see
`findFreeCounter_spec` below), so the embedding equals the Python loop. -/

/-- The candidate `parent / f'{stem}_{counter}{suffix}'` of rules.py line 130. -/
def uniqVariant (p : PathT) (k : ℕ) : PathT :=
  let nm := p.getLast?.getD []
  p.dropLast ++ [pyStem nm ++ ('_' :: natRepr k) ++ pySuffix nm]

/-- The fuelled counter loop of `ensure_unique_path` (rules.py lines 128-133). -/
def findFreeCounter (fs : FS) (p : PathT) : ℕ → ℕ → ℕ
  | 0, k => k
  | f + 1, k =>
    if fsGet fs (uniqVariant p k) = none then k else findFreeCounter fs p f (k + 1)

/-- `ensure_unique_path(path)` of rules.py (lines 122-133). -/
def ensure_unique_path (fs : FS) (p : PathT) : PathT :=
  if fsGet fs p = none then p
  else uniqVariant p (findFreeCounter fs p (fs.length + 1) 1)

/-! ## application/execute_transfer.py -/

/-- Static configuration of a transfer run. `canConvert` models
`options.create_compat and conversion_available(...)` (line 58); `hash` models
`hashlib.sha1(seed).hexdigest()` as a pure function parameter — the digest's
value is irrelevant to the verified properties, only that it is a function of
the seed producing a single path segment. -/
structure XferCfg where
  destRoot : PathT
  fs0 : FS
  canConvert : Bool
  hash : Str → Str

/-- `tmp_dir = dest_root / '.tmp_import'` (line 34). -/
def tmpDir (cfg : XferCfg) : PathT :=
  cfg.destRoot ++ [".tmp_import".data]

/-- `_temp_path_for(dest_rel, temp_dir, object_id)` (lines 18-21):
`temp_dir / f'{sha1(f"{object_id}|{dest_rel}").hexdigest()}.part'`. -/
def temp_path_for (cfg : XferCfg) (dest_rel : Str) (object_id : Str) : PathT :=
  tmpDir cfg ++ [cfg.hash (object_id ++ ('|' :: dest_rel)) ++ ".part".data]

/-- Does a path name a direct `*.part` child of the staging directory (what
`tmp_dir.glob('*.part')` enumerates)? -/
def isPartChild (cfg : XferCfg) (p : PathT) : Bool :=
  decide (p.dropLast = tmpDir cfg) &&
    (match p.getLast? with
     | some nm => List.isSuffixOf (".part".data) nm
     | none => false)

/-- Observable events of a transfer run, in order. Chunk-level progress
callbacks during streaming are not individually modelled; the `progress`
event is the one emitted by the SKIP branch (lines 82-93). -/
inductive TEvent where
  | progress (current_index total_files : ℕ) (current_file : Str)
      (current_bytes current_total bytes_done bytes_total : ℕ)
  | read (object_id : Str)
  | wroteTemp (p : PathT) (size : ℕ) (complete : Bool)
  | renamed (tmp dst : PathT)
  | removed (p : PathT)
  | wroteCompat (p : PathT) (size : ℕ)
deriving DecidableEq, Repr

/-- Effect of one event on the destination filesystem. `renamed` is
`atomic_move` (atomic_write.py lines 10-12): `temp_path.replace(dest_path)`
moves the record, overwriting any file at the destination. -/
def applyEvent (fs : FS) : TEvent → FS
  | TEvent.wroteTemp p n c => fsSet fs p ⟨n, c⟩
  | TEvent.renamed tmp dst =>
    (match fsGet fs tmp with
     | some r => fsSet (fsRemove fs tmp) dst r
     | none => fs)
  | TEvent.removed p => fsRemove fs p
  | TEvent.wroteCompat p n => fsSet fs p ⟨n, true⟩
  | _ => fs

/-- Fold a list of events over the filesystem. -/
def applyEvents (fs : FS) (evs : List TEvent) : FS :=
  evs.foldl applyEvent fs

/-- Behaviour of one `session.download(...)` call (com_wrapper.py lines
789-841) as observed by execute_transfer: it returns `True` after streaming
the whole object, returns `False` (only reachable when cancellation was
observed mid-stream), or raises `COMError` / some other exception. `written`
is the temp file's byte count if the call created/overwrote the temp file
(`none` when it raised before opening the destination handle). -/
inductive DlOutcome where
  | ok (bytes : ℕ)
  | retFalse (written : Option ℕ)
  | raiseCom (written : Option ℕ)
  | raiseExc (written : Option ℕ)
deriving DecidableEq, Repr

/-- Environment for one loop iteration: the two reads of the cancel token
(top of loop, line 68, and after download, line 119), the download outcome,
and the conversion collaborator's result (the ffmpeg/exiftool wrappers catch
their own exceptions and only return booleans). -/
structure ItemEnv where
  cancelTop : Bool
  dl : DlOutcome
  cancelAfter : Bool
  convOk : Bool
  convBytes : ℕ
deriving DecidableEq, Repr

/-- Environment of a whole run: whether `open_device_session` itself raises
`COMError`, the per-item behaviours, and the final read of the cancel token
(line 175). -/
structure XferEnv where
  openFail : Bool
  items : List ItemEnv
  finalCancel : Bool
deriving DecidableEq, Repr

/-- Why the per-item loop stopped early. -/
inductive BrkReason where
  | cancel
  | com
deriving DecidableEq, Repr

/-- Mutable state of the transfer loop (lines 50-56); `errors` is the length
of the accumulated error-message list. -/
structure TState where
  fs : FS
  copied : ℕ
  skipped : ℕ
  failed : ℕ
  converted : ℕ
  errors : ℕ
  bytesDone : ℕ
deriving DecidableEq, Repr

/-- `compat_output_path(dest_path, new_ext)` of convert_media.py (lines
14-15): `dest_path.with_name(f'{dest_path.stem}_COMPAT{new_ext}')`. -/
def compat_output_path (dest : PathT) (new_ext : Str) : PathT :=
  let nm := dest.getLast?.getD []
  dest.dropLast ++ [pyStem nm ++ ("_COMPAT".data ++ new_ext)]

/-- The compat output of `convert_media` (convert_media.py lines 18-48), if
the item's extension is convertible. -/
def convOutcome (item : MediaItemV) (dest : PathT) : Option PathT :=
  if pyLower item.extension = ".heic".data ∨ pyLower item.extension = ".heif".data then
    some (compat_output_path dest (".jpg".data))
  else if item.is_video &&
      decide (pyLower item.extension = ".mov".data ∨ pyLower item.extension = ".m4v".data) then
    some (compat_output_path dest (".mp4".data))
  else none

/-- Bytes reported by the last `on_chunk` callback (`current_bytes`). -/
def currentBytesOf : DlOutcome → ℕ
  | DlOutcome.ok b => b
  | DlOutcome.retFalse w => w.getD 0
  | DlOutcome.raiseCom w => w.getD 0
  | DlOutcome.raiseExc w => w.getD 0

/-- The temp-file write events of one download. -/
def dlWriteEvents (temp : PathT) : DlOutcome → List TEvent
  | DlOutcome.ok b => [TEvent.wroteTemp temp b false, TEvent.wroteTemp temp b true]
  | DlOutcome.retFalse w =>
    (match w with | some b => [TEvent.wroteTemp temp b false] | none => [])
  | DlOutcome.raiseCom w =>
    (match w with | some b => [TEvent.wroteTemp temp b false] | none => [])
  | DlOutcome.raiseExc w =>
    (match w with | some b => [TEvent.wroteTemp temp b false] | none => [])

/-- The download-and-commit part of one loop iteration (lines 99-163), after
the existence/size check chose the effective destination `dest`. -/
def downloadPart (cfg : XferCfg) (st : TState) (item : MediaItemV) (temp dest : PathT)
    (e : ItemEnv) : TState × Option BrkReason × List TEvent :=
  match e.dl with
  | DlOutcome.ok b =>
    let evs0 := TEvent.read item.object_id :: dlWriteEvents temp (DlOutcome.ok b)
    if e.cancelAfter then
      let evs := evs0 ++ [TEvent.removed temp]
      ({ st with fs := applyEvents st.fs evs }, some BrkReason.cancel, evs)
    else
      let evsR := evs0 ++ [TEvent.renamed temp dest]
      let evs := evsR ++
        (if cfg.canConvert then
          match convOutcome item dest with
          | some cp => if e.convOk then [TEvent.wroteCompat cp e.convBytes] else []
          | none => []
         else [])
      let conv := if cfg.canConvert && e.convOk && (convOutcome item dest).isSome then 1 else 0
      ({ st with fs := applyEvents st.fs evs, copied := st.copied + 1,
                 converted := st.converted + conv,
                 bytesDone := st.bytesDone + item.size }, none, evs)
  | DlOutcome.retFalse w =>
    let evs := (TEvent.read item.object_id :: dlWriteEvents temp (DlOutcome.retFalse w))
      ++ [TEvent.removed temp]
    if e.cancelAfter then
      ({ st with fs := applyEvents st.fs evs }, some BrkReason.cancel, evs)
    else
      ({ st with fs := applyEvents st.fs evs, failed := st.failed + 1,
                 errors := st.errors + 1,
                 bytesDone := st.bytesDone + currentBytesOf (DlOutcome.retFalse w) },
       none, evs)
  | DlOutcome.raiseCom w =>
    let evs := (TEvent.read item.object_id :: dlWriteEvents temp (DlOutcome.raiseCom w))
      ++ [TEvent.removed temp]
    ({ st with fs := applyEvents st.fs evs, failed := st.failed + 1,
               errors := st.errors + 1 }, some BrkReason.com, evs)
  | DlOutcome.raiseExc w =>
    let evs := (TEvent.read item.object_id :: dlWriteEvents temp (DlOutcome.raiseExc w))
      ++ [TEvent.removed temp]
    ({ st with fs := applyEvents st.fs evs, failed := st.failed + 1,
               errors := st.errors + 1,
               bytesDone := st.bytesDone + currentBytesOf (DlOutcome.raiseExc w) },
     none, evs)

/-- The temp path of one plan item (line 74). -/
def tempOf (cfg : XferCfg) (pi : PlanItemV) : PathT :=
  temp_path_for cfg (joinPosix pi.dest_rel_parts) pi.item.object_id

/-- One iteration of the per-item loop (lines 66-163). -/
def stepBody (cfg : XferCfg) (index totalF bytesTotal : ℕ) (st : TState) (pi : PlanItemV)
    (e : ItemEnv) : TState × Option BrkReason × List TEvent :=
  if e.cancelTop then (st, some BrkReason.cancel, [])
  else
    let item := pi.item
    let temp := tempOf cfg pi
    match fsGet st.fs pi.dest_abs_path with
    | some r =>
      if r.size = item.size then
        let bd := st.bytesDone + item.size
        ({ st with skipped := st.skipped + 1, bytesDone := bd }, none,
         [TEvent.progress index totalF item.name item.size item.size bd bytesTotal])
      else
        downloadPart cfg st item temp (ensure_unique_path st.fs pi.dest_abs_path) e
    | none => downloadPart cfg st item temp pi.dest_abs_path e

/-- The per-item loop (lines 66-163): state, `last_index`,
`device_disconnected`, and the event trace. -/
def runItems (cfg : XferCfg) (totalF bytesTotal : ℕ) :
    TState → ℕ → ℕ → List (PlanItemV × ItemEnv) → TState × ℕ × Bool × List TEvent
  | st, _, last, [] => (st, last, false, [])
  | st, i, _, (p, e) :: rest =>
    match stepBody cfg i totalF bytesTotal st p e with
    | (st2, none, evs) =>
      let out := runItems cfg totalF bytesTotal st2 (i + 1) i rest
      (out.1, out.2.1, out.2.2.1, evs ++ out.2.2.2)
    | (st2, some BrkReason.cancel, evs) => (st2, i, false, evs)
    | (st2, some BrkReason.com, evs) => (st2, i, true, evs)

/-- `TransferResult` of models.py as produced at lines 192-201; `errors` is
the error-list length. -/
structure TransferResultV where
  total_files : ℕ
  copied : ℕ
  skipped : ℕ
  failed : ℕ
  converted : ℕ
  cancelled : Bool
  errors : ℕ
deriving DecidableEq, Repr

/-- Cleanup events of a cancelled run (lines 176-181): unlink every direct
`*.part` child of the staging directory. -/
def cleanupParts (cfg : XferCfg) (fs : FS) : List TEvent :=
  ((fs.map (fun e => e.1)).filter (fun p => isPartChild cfg p)).map TEvent.removed

/-- Everything observable about one `execute_transfer` run. -/
structure RunOut where
  result : TransferResultV
  fs : FS
  trace : List TEvent
  disconnected : Bool
  lastIndex : ℕ

/-- The zero-initialised loop counters over the starting filesystem (lines
48-56). -/
def initState (cfg : XferCfg) : TState :=
  { fs := cfg.fs0, copied := 0, skipped := 0, failed := 0, converted := 0,
    errors := 0, bytesDone := 0 }

/-- `execute_transfer(plan, device, options, progress_cb, log_cb,
cancel_token)` (lines 24-201). The run log and the empty-staging-dir `rmdir`
(lines 183-187) are unmodelled (they do not touch planned destination paths);
`env.items` pairs with `plan.items` positionally. -/
def execute_transfer (cfg : XferCfg) (plan : ImportPlanV) (env : XferEnv) : RunOut :=
  let totalF := plan.items.length
  let bytesTotal := plan.total_size
  let st0 : TState := initState cfg
  let r :=
    if env.openFail then (st0, 0, true, ([] : List TEvent))
    else runItems cfg totalF bytesTotal st0 1 0 (plan.items.zip env.items)
  let st1 := r.1
  let last := r.2.1
  let disc := r.2.2.1
  let evs := r.2.2.2
  let st2 :=
    if disc then
      { st1 with failed := st1.failed + (totalF - last),
                 errors := if env.openFail then st1.errors + 1 else st1.errors }
    else st1
  let cancelled := env.finalCancel
  let cleanupEvs := if cancelled then cleanupParts cfg st2.fs else []
  let fsF := applyEvents st2.fs cleanupEvs
  { result := { total_files := totalF, copied := st2.copied, skipped := st2.skipped,
                failed := st2.failed, converted := st2.converted, cancelled := cancelled,
                errors := st2.errors },
    fs := fsF, trace := evs ++ cleanupEvs, disconnected := disc, lastIndex := last }

/-! ## infrastructure/wpd/com_wrapper.py : scanner backend selection -/

/-- The exception classes observable at the backend-selection boundary. -/
inductive PyExcV where
  | scanCancelled
  | importError
  | other (tag : ℕ)
deriving DecidableEq, Repr

/-- Result of invoking one scanner backend. -/
inductive BackendOut where
  | ok (items : List MediaItemV)
  | raise (e : PyExcV)
deriving DecidableEq, Repr

/-- The scan-failure signals of domain/errors.py. -/
inductive ScanFailure where
  | cancelled
  | scanError (detail : Str)
deriving DecidableEq, Repr

/-- `_list_media_items_wpd(...)` (com_wrapper.py lines 743-752): re-raise
`ScanCancelled`, wrap any other exception into
`ScanError('error_scan_failed', detail=str(log_path))`. -/
def _list_media_items_wpd (wpdOut : BackendOut) (logPath : Str) :
    Except ScanFailure (List MediaItemV) :=
  match wpdOut with
  | BackendOut.ok items => Except.ok items
  | BackendOut.raise PyExcV.scanCancelled => Except.error ScanFailure.cancelled
  | BackendOut.raise _ => Except.error (ScanFailure.scanError logPath)

/-- `list_media_items(...)` (com_wrapper.py lines 535-561): try the shell
backend; fall back to WPD on an empty result, on `ImportError`, or on any
exception other than `ScanCancelled`, which is re-raised. -/
def list_media_items (shellOut wpdOut : BackendOut) (logPath : Str) :
    Except ScanFailure (List MediaItemV) :=
  match shellOut with
  | BackendOut.ok items =>
    if items ≠ [] then Except.ok items else _list_media_items_wpd wpdOut logPath
  | BackendOut.raise PyExcV.scanCancelled => Except.error ScanFailure.cancelled
  | BackendOut.raise _ => _list_media_items_wpd wpdOut logPath

/-- Does the shell attempt fall through to the WPD backend? -/
def shellFallsThrough : BackendOut → Bool
  | BackendOut.ok items => decide (items = [])
  | BackendOut.raise PyExcV.scanCancelled => false
  | BackendOut.raise _ => true

/-! ## Derived notions used by the specification statements -/

/-- Does `s` contain `pat` as a contiguous substring (Python `pat in s`)? -/
def containsSub (pat : Str) : Str → Bool
  | [] => pat.isPrefixOf []
  | c :: rest => pat.isPrefixOf (c :: rest) || containsSub pat rest

/-- The Live-Photo group of an item: the members of `items_list` sharing its
lowercase base name (the value stored for that key in `by_base`). -/
def grpOf (items_list : List MediaItemV) (x : MediaItemV) : List MediaItemV :=
  items_list.filter (fun i => decide (pyLower i.base_name = pyLower x.base_name))

/-- The effective creation timestamp `group_date.get(item.object_id,
item.created)` used by the planning loop (build_plan.py line 61). -/
def effectiveCreatedOf (items : List MediaItemV) (keep_live : Bool) (x : MediaItemV) :
    Option DateTimeV :=
  (dLookup (if keep_live then buildGroupDate (_sorted_items items) else []) x.object_id).getD
    x.created

/-- The file-name component of a plan item's relative path. -/
def fileNameOf (p : PlanItemV) : Str :=
  p.dest_rel_parts.getLast?.getD []

/-- Does the existence/size check (lines 76-94) take the SKIP branch? -/
def skipsItem (st : TState) (pi : PlanItemV) : Bool :=
  match fsGet st.fs pi.dest_abs_path with
  | some r => decide (r.size = pi.item.size)
  | none => false

/-- The effective destination after the existence/size check, when the SKIP
branch is not taken (lines 76-97). -/
def effDest (st : TState) (pi : PlanItemV) : PathT :=
  match fsGet st.fs pi.dest_abs_path with
  | some _ => ensure_unique_path st.fs pi.dest_abs_path
  | none => pi.dest_abs_path

/-- An item environment that can never break the loop: the cancel token is
not observed and the transport does not raise `COMError`. -/
def NoBrkEnv (e : ItemEnv) : Prop :=
  e.cancelTop = false ∧ e.cancelAfter = false ∧ ∀ w, e.dl ≠ DlOutcome.raiseCom w

/-- Soundness of an environment's cancel-token reads for a set-once token:
if the final read is false, every earlier read was false. -/
def CancelMono (env : XferEnv) : Prop :=
  env.finalCancel = false → ∀ e ∈ env.items, e.cancelTop = false ∧ e.cancelAfter = false

/-- The items accounted for so far. -/
def acct (st : TState) : ℕ :=
  st.copied + st.skipped + st.failed

/-- Every incomplete (partially-written) file lives at a `*.part` path
directly under the staging directory. -/
def IncompleteOnlyTmp (cfg : XferCfg) (fs : FS) : Prop :=
  ∀ pr ∈ fs, pr.2.complete = false → isPartChild cfg pr.1 = true

/-- Safety conditions of an event list with respect to the filesystem it is
applied to: incomplete writes only target staging `*.part` paths, and a
rename's source is a fully-written file at the moment of the rename. -/
def EvsOK (cfg : XferCfg) : FS → List TEvent → Prop
  | _, [] => True
  | fs, ev :: rest =>
    (match ev with
     | TEvent.renamed tmp _ => ∃ r, fsGet fs tmp = some r ∧ r.complete = true
     | TEvent.wroteTemp p _ c => c = false → isPartChild cfg p = true
     | _ => True) ∧ EvsOK cfg (applyEvent fs ev) rest

/-- The `by_base` entry whose qualifying group contains a given object id
(the entry that writes that id into `group_date`). -/
def gdWriter (gs : List (Str × List MediaItemV)) (oid : Str) :
    Option (Str × List MediaItemV) :=
  gs.find? (fun kg => groupQualifies kg.2 &&
    decide (oid ∈ kg.2.map (fun i => i.object_id)))

/-! ## Concrete fixtures for witnesses and counterexamples -/

/-- A concrete media item. -/
def mkItem (oid nm ext : Str) (size : ℕ) (created : Option DateTimeV) : MediaItemV :=
  { device_id := "dev".data, object_id := oid, name := nm, extension := ext,
    size := size, created := created, device_path := "DCIM/100APPLE".data,
    content_type := [] }

/-- A concrete device. -/
def devA : DeviceInfoV :=
  { id := "1".data, name := "iPhone".data }

/-- Concrete import options for a given preset and Live-pair flag. -/
def mkOpts (preset : Str) (keepLive : Bool) : ImportOptionsV :=
  { destination := ["D:".data, "Dest".data], structure_preset := preset,
    template := [], keep_live := keepLive, create_compat := false,
    language := "es".data }

/-- Transfer fixture: a destination root over an empty starting filesystem. -/
def c3cfg : XferCfg :=
  { destRoot := ["D:".data, "Dest".data], fs0 := [], canConvert := false,
    hash := fun _ => "h".data }

/-- A concrete plan item directly under `c3cfg`'s destination root. -/
def c3pi (oid nm : Str) (size : ℕ) : PlanItemV :=
  { item := mkItem oid nm (".jpg".data) size none,
    dest_rel_parts := [nm],
    dest_abs_path := ["D:".data, "Dest".data, nm] }

/-- Three-item plan whose second item hits the device disconnect. -/
def c3plan : ImportPlanV :=
  { items := [c3pi ("1".data) ("a.jpg".data) 7, c3pi ("2".data) ("b.jpg".data) 9,
      c3pi ("3".data) ("c.jpg".data) 5],
    preview_paths := [], total_files := 3, total_size := 21 }

/-- Item behaviour: a per-item streaming exception (not a COMError). -/
def c3e1 : ItemEnv :=
  { cancelTop := false, dl := DlOutcome.raiseExc none, cancelAfter := false,
    convOk := false, convBytes := 0 }

/-- Item behaviour: the transport raises COMError mid-item. -/
def c3e2 : ItemEnv :=
  { cancelTop := false, dl := DlOutcome.raiseCom none, cancelAfter := false,
    convOk := false, convBytes := 0 }

/-- Item behaviour: a clean full download (never reached in the fixture run). -/
def c3e3 : ItemEnv :=
  { cancelTop := false, dl := DlOutcome.ok 5, cancelAfter := false,
    convOk := false, convBytes := 0 }

/-- Run environment for the three-item disconnect run. -/
def c3env : XferEnv :=
  { openFail := false, items := [c3e1, c3e2, c3e3], finalCancel := false }

/-! # Theorems -/

/-! ## Decimal rendering: stability, parsing, injectivity -/

theorem natReprAux_congr (n : ℕ) : ∀ f g, n ≤ f → n ≤ g → natReprAux f n = natReprAux g n := by
  induction n using Nat.strong_induction_on with
  | _ n ih =>
    intro f g hf hg
    cases n with
    | zero => cases f <;> cases g <;> simp [natReprAux]
    | succ m =>
      cases f with
      | zero => omega
      | succ f =>
        cases g with
        | zero => omega
        | succ g =>
          simp only [natReprAux]
          have hdiv : (m + 1) / 10 < m + 1 := Nat.div_lt_self (Nat.succ_pos m) (by norm_num)
          have h1 : (m + 1) / 10 ≤ f := by omega
          have h2 : (m + 1) / 10 ≤ g := by omega
          rw [ih _ hdiv _ _ h1 h2]

theorem digitChar_toNat_sub (r : ℕ) (h : r < 10) : (Nat.digitChar r).toNat - 48 = r := by
  revert r
  decide

theorem parseDigits_concat (xs : Str) (c : Char) :
    parseDigits (xs ++ [c]) = parseDigits xs * 10 + (c.toNat - 48) := by
  simp [parseDigits, List.foldl_append]

theorem parseDigits_natReprAux (n : ℕ) : ∀ f, n ≤ f → parseDigits (natReprAux f n) = n := by
  induction n using Nat.strong_induction_on with
  | _ n ih =>
    intro f hf
    cases n with
    | zero => cases f <;> simp [natReprAux, parseDigits]
    | succ m =>
      cases f with
      | zero => omega
      | succ f =>
        simp only [natReprAux]
        have hdiv : (m + 1) / 10 < m + 1 := Nat.div_lt_self (Nat.succ_pos m) (by norm_num)
        rw [parseDigits_concat, ih _ hdiv f (by omega),
            digitChar_toNat_sub _ (Nat.mod_lt _ (by norm_num))]
        omega

theorem parseDigits_natRepr (n : ℕ) : parseDigits (natRepr n) = n := by
  unfold natRepr
  by_cases h : n = 0
  · simp [h]
    decide
  · rw [if_neg h]
    exact parseDigits_natReprAux n n le_rfl

theorem natRepr_injective : Function.Injective natRepr := by
  intro a b hab
  have := parseDigits_natRepr a
  rw [hab, parseDigits_natRepr] at this
  exact this.symm

/-! ## Sanitization: character membership and shape lemmas -/

theorem mem_pyStripP {p : Char → Bool} {s : Str} {c : Char} (h : c ∈ pyStripP p s) : c ∈ s := by
  unfold pyStripP at h
  rw [List.mem_reverse] at h
  have h2 := (List.dropWhile_sublist (l := (s.dropWhile p).reverse) p).subset h
  rw [List.mem_reverse] at h2
  exact (List.dropWhile_sublist p).subset h2

theorem mem_pyStem {s : Str} {c : Char} (h : c ∈ pyStem s) : c ∈ s := by
  unfold pyStem at h
  split at h
  · exact h
  · split at h
    · exact List.take_subset _ _ h
    · exact h

theorem mem_pySuffix {s : Str} {c : Char} (h : c ∈ pySuffix s) : c ∈ s := by
  unfold pySuffix at h
  split at h
  · simp at h
  · split at h
    · exact List.drop_subset _ _ h
    · simp at h

theorem mem_pyTakeLast {s : Str} {m : ℕ} {c : Char} (h : c ∈ pyTakeLast s m) : c ∈ s := by
  unfold pyTakeLast at h
  by_cases hm : m = 0
  · rwa [if_pos hm] at h
  · rw [if_neg hm] at h
    exact List.drop_subset _ _ h

theorem mem_truncate {name : Str} {m : ℕ} {c : Char} (h : c ∈ truncate_filename name m) :
    c ∈ name := by
  unfold truncate_filename at h
  by_cases h1 : name.length ≤ m
  · rwa [if_pos h1] at h
  · rw [if_neg h1] at h
    by_cases h2 : pySuffix name = []
    · rw [if_pos h2] at h
      exact List.take_subset _ _ h
    · rw [if_neg h2] at h
      by_cases h3 : m ≤ (pySuffix name).length
      · rw [if_pos h3] at h
        exact mem_pySuffix (mem_pyTakeLast h)
      · rw [if_neg h3] at h
        rcases List.mem_append.mp h with h4 | h4
        · exact mem_pyStem (List.take_subset _ _ h4)
        · exact mem_pySuffix h4

theorem clean_sub_chars (a : Char) :
    isWinInvalid (if isWinInvalid (if isWinControl a then '_' else a) then '_'
                  else if isWinControl a then '_' else a) = false ∧
    isWinControl (if isWinInvalid (if isWinControl a then '_' else a) then '_'
                  else if isWinControl a then '_' else a) = false := by
  by_cases h1 : isWinControl a <;> by_cases h2 : isWinInvalid a <;>
    simp [h1, h2] <;> decide

theorem mem_sanitize {name fallback : Str} {ml : Option ℕ} {pe : Bool} {c : Char}
    (h : c ∈ sanitize_filename name fallback ml pe) :
    (isWinInvalid c = false ∧ isWinControl c = false) ∨ c ∈ fallback ∨ c = '_' := by
  have hn2 : ∀ d, d ∈ (name.map (fun x => if isWinControl x then '_' else x)).map
      (fun x => if isWinInvalid x then '_' else x) →
      isWinInvalid d = false ∧ isWinControl d = false := by
    intro d hd
    rw [List.map_map, List.mem_map] at hd
    obtain ⟨a, _, rfl⟩ := hd
    exact clean_sub_chars a
  have happ : ∀ (X : Str), c ∈ applyReserved X →
      (∀ d ∈ X, isWinInvalid d = false ∧ isWinControl d = false) →
      (isWinInvalid c = false ∧ isWinControl c = false) ∨ c ∈ fallback ∨ c = '_' := by
    intro X hc hX
    unfold applyReserved at hc
    by_cases hr : pyUpper X ∈ RESERVED_NAMES
    · rw [if_pos hr] at hc
      rcases List.mem_cons.mp hc with rfl | hc
      · right; right; rfl
      · exact Or.inl (hX c hc)
    · rw [if_neg hr] at hc
      exact Or.inl (hX c hc)
  unfold sanitize_filename at h
  by_cases h0 : name = []
  · rw [if_pos h0] at h
    exact Or.inr (Or.inl h)
  · rw [if_neg h0] at h
    simp only at h
    by_cases h3 : pyStrip ((name.map fun x => if isWinControl x then '_' else x).map
        fun x => if isWinInvalid x then '_' else x) = []
    · rw [if_pos h3] at h
      exact Or.inr (Or.inl h)
    · rw [if_neg h3] at h
      rcases ml with _ | m
      · exact happ _ h (fun d hd => hn2 d (mem_pyStripP hd))
      · simp only at h
        by_cases h4 : m ≠ 0 ∧ m < (pyStrip ((name.map fun x => if isWinControl x then '_' else x).map
            fun x => if isWinInvalid x then '_' else x)).length
        · rw [if_pos h4] at h
          by_cases h5 : pyStrip (if pe then truncate_filename (pyStrip ((name.map
              fun x => if isWinControl x then '_' else x).map
              fun x => if isWinInvalid x then '_' else x)) m
              else (pyStrip ((name.map fun x => if isWinControl x then '_' else x).map
              fun x => if isWinInvalid x then '_' else x)).take m) = []
          · rw [if_pos h5] at h
            exact Or.inr (Or.inl h)
          · rw [if_neg h5] at h
            refine happ _ h ?_
            intro d hd
            have hd2 := mem_pyStripP hd
            by_cases hpe : pe
            · rw [if_pos hpe] at hd2
              exact hn2 d (mem_pyStripP (mem_truncate hd2))
            · rw [if_neg hpe] at hd2
              exact hn2 d (mem_pyStripP (List.take_subset _ _ hd2))
        · rw [if_neg h4] at h
          exact happ _ h (fun d hd => hn2 d (mem_pyStripP hd))

theorem head?_dropWhile {α : Type} (p : α → Bool) :
    ∀ (l : List α) {a : α}, (l.dropWhile p).head? = some a → p a = false := by
  intro l
  induction l with
  | nil => intro a h; simp [List.dropWhile] at h
  | cons x xs ih =>
    intro a h
    rw [List.dropWhile_cons] at h
    by_cases hx : p x
    · rw [if_pos hx] at h
      exact ih h
    · rw [if_neg hx] at h
      simp at h
      rw [← h]
      exact Bool.not_eq_true _ |>.mp hx

theorem getLast?_pyStripP {p : Char → Bool} {s : Str} {a : Char}
    (h : (pyStripP p s).getLast? = some a) : p a = false := by
  unfold pyStripP at h
  rw [List.getLast?_reverse] at h
  exact head?_dropWhile p _ h

theorem getLast?_applyReserved {X : Str} (hX : X ≠ []) :
    (applyReserved X).getLast? = X.getLast? := by
  unfold applyReserved
  by_cases hr : pyUpper X ∈ RESERVED_NAMES
  · rw [if_pos hr]
    obtain ⟨y, ys, rfl⟩ := List.exists_cons_of_ne_nil hX
    rfl
  · rw [if_neg hr]

theorem applyReserved_ne_nil {X : Str} (hX : X ≠ []) : applyReserved X ≠ [] := by
  unfold applyReserved
  by_cases hr : pyUpper X ∈ RESERVED_NAMES
  · rw [if_pos hr]; simp
  · rwa [if_neg hr]

theorem reserved_head_ne_underscore : ∀ r ∈ RESERVED_NAMES, r.head? ≠ some '_' := by
  decide

theorem pyUpper_applyReserved_not_reserved (X : Str) :
    pyUpper (applyReserved X) ∉ RESERVED_NAMES := by
  unfold applyReserved
  by_cases hr : pyUpper X ∈ RESERVED_NAMES
  · rw [if_pos hr]
    intro hmem
    have hhead : (pyUpper ('_' :: X)).head? = some '_' := by
      simp [pyUpper]
    exact reserved_head_ne_underscore _ hmem hhead
  · rwa [if_neg hr]

/-- The generic shape facts about `sanitize_filename` output: never empty
(fallback nonempty), stripped tail, reserved names excluded. -/
theorem sanitize_shape (name fallback : Str) (ml : Option ℕ) (pe : Bool) :
    sanitize_filename name fallback ml pe = fallback ∨
      (sanitize_filename name fallback ml pe ≠ [] ∧
        (∀ c, (sanitize_filename name fallback ml pe).getLast? = some c →
          isStripChar c = false) ∧
        pyUpper (sanitize_filename name fallback ml pe) ∉ RESERVED_NAMES) := by
  have hres : ∀ (X : Str), X ≠ [] → (∀ c, X.getLast? = some c → isStripChar c = false) →
      applyReserved X ≠ [] ∧
      (∀ c, (applyReserved X).getLast? = some c → isStripChar c = false) ∧
      pyUpper (applyReserved X) ∉ RESERVED_NAMES := by
    intro X hX hlast
    refine ⟨applyReserved_ne_nil hX, ?_, pyUpper_applyReserved_not_reserved X⟩
    intro c hc
    rw [getLast?_applyReserved hX] at hc
    exact hlast c hc
  unfold sanitize_filename
  by_cases h0 : name = []
  · rw [if_pos h0]; exact Or.inl rfl
  · rw [if_neg h0]
    simp only
    by_cases h3 : pyStrip ((name.map fun x => if isWinControl x then '_' else x).map
        fun x => if isWinInvalid x then '_' else x) = []
    · rw [if_pos h3]; exact Or.inl rfl
    · rw [if_neg h3]
      rcases ml with _ | m
      · refine Or.inr (hres _ h3 ?_)
        intro c hc
        exact getLast?_pyStripP hc
      · simp only
        by_cases h4 : m ≠ 0 ∧ m < (pyStrip ((name.map fun x => if isWinControl x then '_' else x).map
            fun x => if isWinInvalid x then '_' else x)).length
        · rw [if_pos h4]
          by_cases h5 : pyStrip (if pe then truncate_filename (pyStrip ((name.map
              fun x => if isWinControl x then '_' else x).map
              fun x => if isWinInvalid x then '_' else x)) m
              else (pyStrip ((name.map fun x => if isWinControl x then '_' else x).map
              fun x => if isWinInvalid x then '_' else x)).take m) = []
          · rw [if_pos h5]; exact Or.inl rfl
          · rw [if_neg h5]
            refine Or.inr (hres _ h5 ?_)
            intro c hc
            exact getLast?_pyStripP hc
        · rw [if_neg h4]
          refine Or.inr (hres _ h3 ?_)
          intro c hc
          exact getLast?_pyStripP hc

/-- C8. For every input string (and any truncation mode), the result of
`sanitize_filename` with the default fallback `'file'` contains no
platform-reserved path characters and no control characters, has no trailing
dot or space, is never empty, and never equals a reserved device name
case-insensitively (reserved inputs having been prefixed with an
underscore). -/
theorem C8_sanitize_always_safe (name : Str) (ml : Option ℕ) (pe : Bool) :
    (∀ c ∈ sanitize_filename name ("file".data) ml pe,
        isWinInvalid c = false ∧ isWinControl c = false) ∧
    sanitize_filename name ("file".data) ml pe ≠ [] ∧
    (∀ c, (sanitize_filename name ("file".data) ml pe).getLast? = some c →
        c ≠ ' ' ∧ c ≠ '.') ∧
    pyUpper (sanitize_filename name ("file".data) ml pe) ∉ RESERVED_NAMES := by
  have hchars : ∀ c ∈ sanitize_filename name ("file".data) ml pe,
      isWinInvalid c = false ∧ isWinControl c = false := by
    intro c hc
    rcases mem_sanitize hc with h | h | h
    · exact h
    · have h2 : c ∈ ['f', 'i', 'l', 'e'] := h
      fin_cases h2 <;> exact ⟨by decide, by decide⟩
    · subst h; exact ⟨by decide, by decide⟩
  refine ⟨hchars, ?_⟩
  rcases sanitize_shape name ("file".data) ml pe with h | ⟨hne, hlast, hres⟩
  · rw [h]
    refine ⟨by decide, ?_, by decide⟩
    intro c hc
    have h6 : 'e' = c := by simpa using hc
    subst h6
    exact ⟨by decide, by decide⟩
  · refine ⟨hne, ?_, hres⟩
    intro c hc
    have h7 := hlast c hc
    unfold isStripChar at h7
    constructor
    · intro hce; subst hce; simp at h7
    · intro hce; subst hce; simp at h7

/-- Witness for C8 at a concrete input. -/
theorem C8_witness :
    (∀ c ∈ sanitize_filename ("  CON: ".data) ("file".data) (some 10) false,
        isWinInvalid c = false ∧ isWinControl c = false) ∧
    sanitize_filename ("  CON: ".data) ("file".data) (some 10) false ≠ [] ∧
    (∀ c, (sanitize_filename ("  CON: ".data) ("file".data) (some 10) false).getLast? = some c →
        c ≠ ' ' ∧ c ≠ '.') ∧
    pyUpper (sanitize_filename ("  CON: ".data) ("file".data) (some 10) false) ∉
      RESERVED_NAMES :=
  C8_sanitize_always_safe ("  CON: ".data) (some 10) false

/-! ## Template expansion: segment length bound (C9) -/

theorem length_pyStripP (p : Char → Bool) (s : Str) : (pyStripP p s).length ≤ s.length := by
  unfold pyStripP
  rw [List.length_reverse]
  calc ((s.dropWhile p).reverse.dropWhile p).length
      ≤ (s.dropWhile p).reverse.length := (List.dropWhile_sublist p).length_le
    _ = (s.dropWhile p).length := List.length_reverse _
    _ ≤ s.length := (List.dropWhile_sublist p).length_le

theorem reserved_length_le : ∀ r ∈ RESERVED_NAMES, r.length ≤ 4 := by
  decide

theorem applyReserved_length_le {X : Str} {m : ℕ} (hm : 5 ≤ m) (hX : X.length ≤ m) :
    (applyReserved X).length ≤ m := by
  unfold applyReserved
  by_cases hr : pyUpper X ∈ RESERVED_NAMES
  · rw [if_pos hr]
    have hlen : (pyUpper X).length ≤ 4 := reserved_length_le _ hr
    rw [pyUpper, List.length_map] at hlen
    simp only [List.length_cons]
    omega
  · rwa [if_neg hr]

theorem pyStrip_take_length_le (s : Str) (m : ℕ) : (pyStrip (s.take m)).length ≤ m := by
  calc (pyStrip (s.take m)).length ≤ (s.take m).length := length_pyStripP _ _
    _ ≤ m := by rw [List.length_take]; exact min_le_left _ _

theorem sanitize_folder_length (p : Str) :
    (sanitize_filename p ("folder".data) (some MAX_FOLDER_NAME) false).length ≤
      MAX_FOLDER_NAME := by
  unfold sanitize_filename
  split
  · decide
  · simp only
    split
    · decide
    · rw [if_neg (show ¬((false : Bool) = true) by decide)]
      split
      · split
        · decide
        · refine applyReserved_length_le (by decide) ?_
          exact le_trans (pyStrip_take_length_le _ _) (by decide)
      · refine applyReserved_length_le (by decide) ?_
        rename_i hcond
        rw [not_and_or] at hcond
        rcases hcond with h1 | h2
        · exact absurd (by decide) h1
        · omega

/-- C9. Every path segment produced by `apply_template` has length at most
`MAX_FOLDER_NAME` (60), for every template and every token assignment,
regardless of the lengths of the substituted token values. -/
theorem C9_template_segments_bounded (template : Str) (tokens : List (Str × Str)) :
    ∀ seg ∈ apply_template template tokens, seg.length ≤ MAX_FOLDER_NAME := by
  intro seg hseg
  unfold apply_template at hseg
  by_cases h0 : template = []
  · rw [if_pos h0] at hseg
    simp at hseg
  · rw [if_neg h0] at hseg
    simp only at hseg
    split at hseg
    · simp at hseg
    · rw [List.mem_map] at hseg
      obtain ⟨q, _, rfl⟩ := hseg
      exact sanitize_folder_length q

/-- Witness for C9 at a concrete template with an over-long token value. -/
theorem C9_witness :
    "2024".data ∈
      apply_template ("{DEVICE}/{YYYY}".data)
        [("DEVICE".data, List.replicate 61 'D'), ("YYYY".data, "2024".data)] ∧
    ("2024".data).length ≤ MAX_FOLDER_NAME :=
  ⟨by decide,
   C9_template_segments_bounded ("{DEVICE}/{YYYY}".data)
     [("DEVICE".data, List.replicate 61 'D'), ("YYYY".data, "2024".data)] ("2024".data)
     (by decide)⟩

/-! ## Scanner backend selection (C7) -/

/-- C7. A cancellation during a scan surfaces as the distinct `ScanCancelled`
signal and is never wrapped into `ScanError`: the backend-selection logic
re-raises a cancellation from either backend instead of swallowing it or
falling back (first conjunct, an exact characterisation), a `ScanError` can
only arise from a non-cancellation WPD exception after the shell attempt fell
through (second conjunct), and any other transport exception during the WPD
scan is wrapped into `ScanError` carrying the diagnostic log path (third
conjunct). -/
theorem C7_scan_cancellation_distinct (shellOut wpdOut : BackendOut) (logPath : Str) :
    (list_media_items shellOut wpdOut logPath = Except.error ScanFailure.cancelled ↔
      (shellOut = BackendOut.raise PyExcV.scanCancelled ∨
        (shellFallsThrough shellOut = true ∧
          wpdOut = BackendOut.raise PyExcV.scanCancelled))) ∧
    (∀ d, list_media_items shellOut wpdOut logPath = Except.error (ScanFailure.scanError d) →
      d = logPath ∧ shellFallsThrough shellOut = true ∧
        ∃ e, wpdOut = BackendOut.raise e ∧ e ≠ PyExcV.scanCancelled) ∧
    (∀ e, shellFallsThrough shellOut = true → e ≠ PyExcV.scanCancelled →
      wpdOut = BackendOut.raise e →
      list_media_items shellOut wpdOut logPath = Except.error (ScanFailure.scanError logPath)) := by
  have hwpd : ∀ d, _list_media_items_wpd wpdOut logPath = Except.error (ScanFailure.scanError d) →
      d = logPath ∧ ∃ e, wpdOut = BackendOut.raise e ∧ e ≠ PyExcV.scanCancelled := by
    intro d h
    cases wpdOut with
    | ok items => simp [_list_media_items_wpd] at h
    | raise e =>
      cases e with
      | scanCancelled => simp [_list_media_items_wpd] at h
      | importError =>
        simp [_list_media_items_wpd] at h
        exact ⟨h.symm, PyExcV.importError, rfl, by simp⟩
      | other t =>
        simp [_list_media_items_wpd] at h
        exact ⟨h.symm, PyExcV.other t, rfl, by simp⟩
  have hwpdc : _list_media_items_wpd wpdOut logPath = Except.error ScanFailure.cancelled ↔
      wpdOut = BackendOut.raise PyExcV.scanCancelled := by
    cases wpdOut with
    | ok items => simp [_list_media_items_wpd]
    | raise e => cases e <;> simp [_list_media_items_wpd]
  have hwpde : ∀ e, e ≠ PyExcV.scanCancelled → wpdOut = BackendOut.raise e →
      _list_media_items_wpd wpdOut logPath = Except.error (ScanFailure.scanError logPath) := by
    intro e he hw
    subst hw
    cases e with
    | scanCancelled => exact absurd rfl he
    | importError => simp [_list_media_items_wpd]
    | other t => simp [_list_media_items_wpd]
  cases shellOut with
  | ok items =>
    by_cases hi : items = []
    · subst hi
      refine ⟨?_, ?_, ?_⟩
      · simp [list_media_items, shellFallsThrough, hwpdc]
      · intro d h
        simp [list_media_items] at h
        obtain ⟨hd, he⟩ := hwpd d h
        exact ⟨hd, by simp [shellFallsThrough], he⟩
      · intro e _ he hw
        simp [list_media_items]
        exact hwpde e he hw
    · refine ⟨?_, ?_, ?_⟩
      · simp [list_media_items, hi, shellFallsThrough]
      · intro d h
        simp [list_media_items, hi] at h
      · intro e hf
        simp [shellFallsThrough, hi] at hf
  | raise ex =>
    cases ex with
    | scanCancelled =>
      refine ⟨?_, ?_, ?_⟩
      · simp [list_media_items]
      · intro d h
        simp [list_media_items] at h
      · intro e hf
        simp [shellFallsThrough] at hf
    | importError =>
      refine ⟨?_, ?_, ?_⟩
      · simp [list_media_items, shellFallsThrough, hwpdc]
      · intro d h
        simp [list_media_items] at h
        obtain ⟨hd, he⟩ := hwpd d h
        exact ⟨hd, by simp [shellFallsThrough], he⟩
      · intro e _ he hw
        simp [list_media_items]
        exact hwpde e he hw
    | other t =>
      refine ⟨?_, ?_, ?_⟩
      · simp [list_media_items, shellFallsThrough, hwpdc]
      · intro d h
        simp [list_media_items] at h
        obtain ⟨hd, he⟩ := hwpd d h
        exact ⟨hd, by simp [shellFallsThrough], he⟩
      · intro e _ he hw
        simp [list_media_items]
        exact hwpde e he hw

/-- Witness for C7: a cancellation raised by the WPD backend after the shell
backend fell over is propagated, not wrapped. -/
theorem C7_witness :
    shellFallsThrough (BackendOut.raise (PyExcV.other 0)) = true ∧
    list_media_items (BackendOut.raise (PyExcV.other 0))
        (BackendOut.raise PyExcV.scanCancelled) ("scan.log".data) =
      Except.error ScanFailure.cancelled :=
  ⟨by decide,
   (C7_scan_cancellation_distinct (BackendOut.raise (PyExcV.other 0))
       (BackendOut.raise PyExcV.scanCancelled) ("scan.log".data)).1.mpr
     (Or.inr ⟨by decide, rfl⟩)⟩

/-! ## Planner ordering (C5) -/

theorem itemLE_noDate {a b : MediaItemV} (h : itemLE a b) (ha : a.created = none) :
    b.created = none := by
  unfold itemLE sortKey at h
  rw [Prod.Lex.le_iff] at h
  rcases h with h | h
  · simp only [ha, Option.isNone_none] at h
    exact absurd h (by simp)
  · have h1 := h.1
    rw [ha] at h1
    simp only [Option.isNone_none] at h1
    exact Option.isNone_iff_eq_none.mp h1.symm

theorem sorted_eq_of_perm_of_sorted_of_nodup_keys :
    ∀ (l1 l2 : List MediaItemV), l1.Perm l2 → List.Sorted itemLE l1 →
      List.Sorted itemLE l2 → (l1.map sortKey).Nodup → l1 = l2 := by
  intro l1
  induction l1 with
  | nil =>
    intro l2 hp _ _ _
    exact hp.nil_eq
  | cons a t ih =>
    intro l2 hp hs1 hs2 hnd
    cases l2 with
    | nil =>
      have := hp.length_eq
      simp at this
    | cons b t2 =>
      by_cases hab : a = b
      · subst hab
        have ht : t.Perm t2 := hp.cons_inv
        rw [List.map_cons, List.nodup_cons] at hnd
        rw [ih t2 ht hs1.of_cons hs2.of_cons hnd.2]
      · have hb1 : b ∈ a :: t := hp.symm.subset (List.mem_cons_self b t2)
        have ha2 : a ∈ b :: t2 := hp.subset (List.mem_cons_self a t)
        have hb1t : b ∈ t := by
          rcases List.mem_cons.mp hb1 with h | h
          · exact absurd h.symm hab
          · exact h
        have ha2t : a ∈ t2 := by
          rcases List.mem_cons.mp ha2 with h | h
          · exact absurd h hab
          · exact h
        have h1 : itemLE a b := (List.sorted_cons.mp hs1).1 b hb1t
        have h2 : itemLE b a := (List.sorted_cons.mp hs2).1 a ha2t
        have hkey : sortKey a = sortKey b := le_antisymm h1 h2
        rw [List.map_cons, List.nodup_cons] at hnd
        exact absurd (hkey ▸ List.mem_map_of_mem sortKey hb1t) hnd.1

/-- C5 (amended). `_sorted_items` sorts by the key (created-is-absent,
created-or-zero, lowercase name): the output is sorted by that key and is a
permutation of the input; every item without a timestamp sorts after every
timestamped item; `build_plan` emits plan items exactly in this order; and
the order is independent of the Scanner emission order PROVIDED no two items
share a sort key (Python's `sorted` is stable, so inputs containing distinct
items with equal keys — e.g. equal name, timestamp absent in both — keep
their emission order, see the counterexample). -/
theorem C5_sort_order_amended :
    (∀ items : List MediaItemV, List.Sorted itemLE (_sorted_items items)) ∧
    (∀ items : List MediaItemV, (_sorted_items items).Perm items) ∧
    (∀ items : List MediaItemV,
      (_sorted_items items).Pairwise (fun a b => a.created = none → b.created = none)) ∧
    (∀ l1 l2 : List MediaItemV, l1.Perm l2 → (l1.map sortKey).Nodup →
      _sorted_items l1 = _sorted_items l2) ∧
    (∀ device items options,
      ((build_plan device items options).items.map (fun p => p.item)) =
        _sorted_items items) := by
  refine ⟨?_, ?_, ?_, ?_, ?_⟩
  · intro items
    exact List.sorted_insertionSort itemLE items
  · intro items
    exact List.perm_insertionSort itemLE items
  · intro items
    have hs := List.sorted_insertionSort itemLE items
    exact hs.imp (fun h ha => itemLE_noDate h ha)
  · intro l1 l2 hp hnd
    have hperm : (_sorted_items l1).Perm (_sorted_items l2) :=
      ((List.perm_insertionSort itemLE l1).trans hp).trans
        (List.perm_insertionSort itemLE l2).symm
    have hnd1 : ((_sorted_items l1).map sortKey).Nodup := by
      have : ((_sorted_items l1).map sortKey).Perm (l1.map sortKey) :=
        (List.perm_insertionSort itemLE l1).map sortKey
      exact (this.nodup_iff).mpr hnd
    exact sorted_eq_of_perm_of_sorted_of_nodup_keys _ _ hperm
      (List.sorted_insertionSort itemLE l1) (List.sorted_insertionSort itemLE l2) hnd1
  · intro device items options
    simp only [build_plan]
    rw [List.map_map]
    have : (fun p : PlanItemV => p.item) ∘
        planItemFor device options (activeTemplate options)
          (if options.keep_live = true then buildGroupDate (_sorted_items items) else []) =
        fun x => x := by
      funext x
      simp [planItemFor]
    rw [this]
    exact List.map_id _

/-- Witness for C5: permutation independence at concrete items with distinct
keys. -/
theorem C5_witness :
    ([mkItem ("1".data) ("a.jpg".data) (".jpg".data) 1 none,
      mkItem ("2".data) ("b.jpg".data) (".jpg".data) 1 none] : List MediaItemV).Perm
      [mkItem ("2".data) ("b.jpg".data) (".jpg".data) 1 none,
       mkItem ("1".data) ("a.jpg".data) (".jpg".data) 1 none] ∧
    _sorted_items
        [mkItem ("1".data) ("a.jpg".data) (".jpg".data) 1 none,
         mkItem ("2".data) ("b.jpg".data) (".jpg".data) 1 none] =
      _sorted_items
        [mkItem ("2".data) ("b.jpg".data) (".jpg".data) 1 none,
         mkItem ("1".data) ("a.jpg".data) (".jpg".data) 1 none] :=
  ⟨List.Perm.swap _ _ _,
   C5_sort_order_amended.2.2.2.1 _ _ (List.Perm.swap _ _ _) (by decide)⟩

/-- Counterexample to C5 as stated: two distinct items (different object ids)
with identical sort keys; swapping the emission order changes the plan order,
because Python's sort is stable. -/
theorem C5_counterexample :
    ([mkItem ("1".data) ("a.jpg".data) (".jpg".data) 1 none,
      mkItem ("2".data) ("a.jpg".data) (".jpg".data) 1 none] : List MediaItemV).Perm
      [mkItem ("2".data) ("a.jpg".data) (".jpg".data) 1 none,
       mkItem ("1".data) ("a.jpg".data) (".jpg".data) 1 none] ∧
    (build_plan devA
        [mkItem ("1".data) ("a.jpg".data) (".jpg".data) 1 none,
         mkItem ("2".data) ("a.jpg".data) (".jpg".data) 1 none]
        (mkOpts ("A".data) false)).items ≠
      (build_plan devA
        [mkItem ("2".data) ("a.jpg".data) (".jpg".data) 1 none,
         mkItem ("1".data) ("a.jpg".data) (".jpg".data) 1 none]
        (mkOpts ("A".data) false)).items :=
  ⟨List.Perm.swap _ _ _, by decide⟩

/-! ## Planner file names (C6) -/

theorem pyStem_append_pySuffix (s : Str) : pyStem s ++ pySuffix s = s := by
  unfold pyStem pySuffix
  cases hd : pyDotIdx s with
  | none => simp
  | some i =>
    simp only
    by_cases hc : 0 < i ∧ i < s.length - 1
    · rw [if_pos hc, if_pos hc]
      exact List.take_append_drop i s
    · rw [if_neg hc, if_neg hc]
      simp

/-- C6 (amended). The Planner builds the destination file name as
`<formatted-timestamp-or-"unknown_date">_<sanitized-stem><extension>` (first
three conjuncts, including the wiring through `build_plan` with the effective
Live-pair timestamp); the separate `truncate_filename` helper respects a
maximum length and preserves the extension when truncating (last conjunct) —
but the Planner itself applies no maximum to the file name (see the
counterexample), so the only length cap available is the helper's. -/
theorem C6_planner_filename_amended :
    (∀ (item : MediaItemV) (dt : DateTimeV),
      planFileNameOf item (some dt) =
        format_datetime dt ++ ('_' ::
          sanitize_filename (if item.name ≠ [] then pyStem item.name else "original".data)
            ("original".data) none false) ++ item.extension) ∧
    (∀ item : MediaItemV,
      planFileNameOf item none =
        "unknown_date".data ++ ('_' ::
          sanitize_filename (if item.name ≠ [] then pyStem item.name else "original".data)
            ("original".data) none false) ++ item.extension) ∧
    (∀ device items options pi, pi ∈ (build_plan device items options).items →
      fileNameOf pi = planFileNameOf pi.item
        (effectiveCreatedOf items options.keep_live pi.item)) ∧
    (∀ (name : Str) (m : ℕ), 1 ≤ m →
      ((m < name.length → (truncate_filename name m).length ≤ m) ∧
       (pySuffix name ≠ [] → (pySuffix name).length < m →
         ∃ s, truncate_filename name m = s ++ pySuffix name))) := by
  refine ⟨?_, ?_, ?_, ?_⟩
  · intro item dt
    simp [planFileNameOf, build_base_filename]
  · intro item
    simp [planFileNameOf, build_base_filename]
  · intro device items options pi hpi
    simp only [build_plan, List.mem_map] at hpi
    obtain ⟨x, _, rfl⟩ := hpi
    simp only [planItemFor, fileNameOf, planFileNameOf, effectiveCreatedOf, activeTemplate]
    rw [List.getLast?_concat]
    rfl
  · intro name m hm
    constructor
    · intro hlen
      unfold truncate_filename
      rw [if_neg (by omega)]
      by_cases hext : pySuffix name = []
      · rw [if_pos hext]
        rw [List.length_take]
        exact min_le_left _ _
      · rw [if_neg hext]
        by_cases hml : m ≤ (pySuffix name).length
        · rw [if_pos hml]
          unfold pyTakeLast
          rw [if_neg (by omega)]
          rw [List.length_drop]
          omega
        · rw [if_neg hml]
          rw [List.length_append, List.length_take]
          have := min_le_left ((pyStem name).length) (m - (pySuffix name).length)
          omega
    · intro hext hlt
      unfold truncate_filename
      by_cases hlen : name.length ≤ m
      · rw [if_pos hlen]
        exact ⟨pyStem name, (pyStem_append_pySuffix name).symm⟩
      · rw [if_neg hlen, if_neg hext, if_neg (by omega)]
        exact ⟨(pyStem name).take (m - (pySuffix name).length), rfl⟩

set_option maxRecDepth 40000 in
/-- Witness for C6 at a 300-character stem with suffix `.HEIC` and the
maximum file-name length 150. -/
theorem C6_witness :
    (1 : ℕ) ≤ MAX_FILE_NAME ∧
    MAX_FILE_NAME < (List.replicate 300 'A' ++ (".HEIC".data)).length ∧
    (truncate_filename (List.replicate 300 'A' ++ (".HEIC".data)) MAX_FILE_NAME).length ≤
      MAX_FILE_NAME :=
  ⟨by decide, by decide,
   (C6_planner_filename_amended.2.2.2 (List.replicate 300 'A' ++ (".HEIC".data))
       MAX_FILE_NAME (by decide)).1 (by decide)⟩

set_option maxRecDepth 40000 in
/-- Counterexample to C6 as stated: the Planner enforces no maximum file-name
length — a 195-character stem yields a 220-character plan file name, above
`MAX_FILE_NAME = 150`. -/
theorem C6_counterexample :
    ((build_plan devA
        [mkItem ("1".data) (List.replicate 195 'A' ++ (".heic".data)) (".heic".data) 10
          (some ⟨2024, 5, 10, 12, 0, 0⟩)]
        (mkOpts ("A".data) false)).items.map (fun p => (fileNameOf p).length)) = [220] ∧
    MAX_FILE_NAME < 220 := by
  constructor
  · decide
  · decide

/-! ## Dict lemmas for the Live-Photo grouping (C4) -/

theorem dLookup_nil {V : Type} (k : Str) : dLookup ([] : List (Str × V)) k = none := rfl

theorem dLookup_cons {V : Type} (k1 : Str) (v1 : V) (d : List (Str × V)) (k : Str) :
    dLookup ((k1, v1) :: d) k = if k1 = k then some v1 else dLookup d k := by
  by_cases h : k1 = k <;> simp [dLookup, List.find?_cons, h]

theorem dLookup_dSetAppend (d : List (Str × List MediaItemV)) (k0 : Str) (v : MediaItemV)
    (k : Str) :
    dLookup (dSetAppend d k0 v) k =
      if k0 = k then some ((dLookup d k).getD [] ++ [v]) else dLookup d k := by
  induction d with
  | nil =>
    simp only [dSetAppend]
    rw [dLookup_cons]
    by_cases h : k0 = k <;> simp [h, dLookup_nil]
  | cons hd tl ih =>
    obtain ⟨k1, vs⟩ := hd
    simp only [dSetAppend]
    by_cases h1 : k1 = k0
    · subst h1
      rw [if_pos rfl, dLookup_cons, dLookup_cons]
      by_cases h2 : k1 = k
      · subst h2
        simp
      · simp [h2]
    · rw [if_neg h1, dLookup_cons, dLookup_cons]
      by_cases h2 : k1 = k
      · subst h2
        rw [if_pos rfl, if_pos rfl, if_neg (fun he => h1 he.symm)]
      · rw [if_neg h2, if_neg h2, ih]

theorem dLookup_dSet {V : Type} (d : List (Str × V)) (k0 : Str) (v : V) (k : Str) :
    dLookup (dSet d k0 v) k = if k0 = k then some v else dLookup d k := by
  induction d with
  | nil =>
    simp only [dSet]
    rw [dLookup_cons, dLookup_nil]
  | cons hd tl ih =>
    obtain ⟨k1, v1⟩ := hd
    simp only [dSet]
    by_cases h1 : k1 = k0
    · subst h1
      rw [if_pos rfl, dLookup_cons, dLookup_cons]
      by_cases h2 : k1 = k
      · subst h2
        rw [if_pos rfl, if_pos rfl]
      · rw [if_neg h2, if_neg h2, if_neg h2]
    · rw [if_neg h1, dLookup_cons, dLookup_cons]
      by_cases h2 : k1 = k
      · subst h2
        rw [if_pos rfl, if_pos rfl, if_neg (fun he => h1 he.symm)]
      · rw [if_neg h2, if_neg h2, ih]

theorem dSetAppend_keys (d : List (Str × List MediaItemV)) (k0 : Str) (v : MediaItemV) :
    (dSetAppend d k0 v).map Prod.fst =
      if k0 ∈ d.map Prod.fst then d.map Prod.fst else d.map Prod.fst ++ [k0] := by
  induction d with
  | nil => simp [dSetAppend]
  | cons hd tl ih =>
    obtain ⟨k1, vs⟩ := hd
    simp only [dSetAppend]
    by_cases h1 : k1 = k0
    · subst h1
      simp
    · rw [if_neg h1, List.map_cons, ih, List.map_cons]
      by_cases h2 : k0 ∈ tl.map Prod.fst
      · rw [if_pos h2, if_pos (List.mem_cons_of_mem _ h2)]
      · rw [if_neg h2, if_neg ?_, List.cons_append]
        intro hmem
        rcases List.mem_cons.mp hmem with he | he
        · exact h1 he.symm
        · exact h2 he

theorem foldl_dSetAppend_keys_nodup :
    ∀ (l : List MediaItemV) (d : List (Str × List MediaItemV)),
    (d.map Prod.fst).Nodup →
    (((l.foldl (fun d i => dSetAppend d (pyLower i.base_name) i)) d).map Prod.fst).Nodup := by
  intro l
  induction l with
  | nil => intro d hd; exact hd
  | cons i tl ih =>
    intro d hd
    simp only [List.foldl_cons]
    refine ih _ ?_
    rw [dSetAppend_keys]
    by_cases h : pyLower i.base_name ∈ d.map Prod.fst
    · rwa [if_pos h]
    · rw [if_neg h]
      rw [List.nodup_append]
      exact ⟨hd, List.nodup_singleton _, by simpa using h⟩

theorem byBase_keys_nodup (l : List MediaItemV) : ((byBase l).map Prod.fst).Nodup :=
  foldl_dSetAppend_keys_nodup l [] (by simp)

theorem dLookup_of_mem {V : Type} :
    ∀ (d : List (Str × V)), (d.map Prod.fst).Nodup → ∀ kv ∈ d, dLookup d kv.1 = some kv.2 := by
  intro d
  induction d with
  | nil => intro _ kv hkv; simp at hkv
  | cons hd tl ih =>
    intro hnd kv hkv
    obtain ⟨k1, v1⟩ := hd
    rw [List.map_cons, List.nodup_cons] at hnd
    rcases List.mem_cons.mp hkv with rfl | hkv
    · rw [dLookup_cons, if_pos rfl]
    · rw [dLookup_cons, if_neg ?_]
      · exact ih hnd.2 kv hkv
      · intro he
        apply hnd.1
        rw [he]
        exact List.mem_map.mpr ⟨kv, hkv, rfl⟩

theorem dLookup_foldl_dSet (v : Option DateTimeV) :
    ∀ (ms : List MediaItemV) (a0 : List (Str × Option DateTimeV)) (k : Str),
    dLookup (ms.foldl (fun a i => dSet a i.object_id v) a0) k =
      if k ∈ ms.map (fun i => i.object_id) then some v else dLookup a0 k := by
  intro ms
  induction ms with
  | nil => intro a0 k; simp
  | cons m tl ih =>
    intro a0 k
    simp only [List.foldl_cons]
    rw [ih, dLookup_dSet, List.map_cons]
    by_cases h1 : k ∈ tl.map (fun i => i.object_id)
    · rw [if_pos h1, if_pos (List.mem_cons_of_mem _ h1)]
    · rw [if_neg h1]
      by_cases h2 : m.object_id = k
      · subst h2
        rw [if_pos rfl, if_pos (List.mem_cons_self _ _)]
      · rw [if_neg h2, if_neg ?_]
        intro hmem
        rcases List.mem_cons.mp hmem with he | he
        · exact h2 he.symm
        · exact h1 he

theorem dLookup_byBase_fold :
    ∀ (l : List MediaItemV) (d : List (Str × List MediaItemV)) (k : Str),
    dLookup (l.foldl (fun d i => dSetAppend d (pyLower i.base_name) i) d) k =
      if dLookup d k = none ∧ l.filter (fun i => decide (pyLower i.base_name = k)) = []
      then none
      else some ((dLookup d k).getD [] ++
        l.filter (fun i => decide (pyLower i.base_name = k))) := by
  intro l
  induction l with
  | nil =>
    intro d k
    simp only [List.foldl_nil, List.filter_nil, List.append_nil]
    cases hd : dLookup d k with
    | none => simp
    | some vs => simp
  | cons i tl ih =>
    intro d k
    simp only [List.foldl_cons, List.filter_cons]
    rw [ih, dLookup_dSetAppend]
    by_cases hk : pyLower i.base_name = k
    · rw [if_pos hk]
      rw [if_neg (by simp)]
      rw [if_neg (by simp [hk])]
      simp [hk, List.append_assoc]
    · rw [if_neg hk]
      simp [hk]

theorem dLookup_byBase (l : List MediaItemV) (k : Str) :
    dLookup (byBase l) k =
      if l.filter (fun i => decide (pyLower i.base_name = k)) = [] then none
      else some (l.filter (fun i => decide (pyLower i.base_name = k))) := by
  unfold byBase
  rw [dLookup_byBase_fold]
  simp [dLookup_nil]

theorem byBase_entry (l : List MediaItemV) (kg : Str × List MediaItemV) (h : kg ∈ byBase l) :
    kg.2 = l.filter (fun i => decide (pyLower i.base_name = kg.1)) ∧ kg.2 ≠ [] := by
  have hl := dLookup_of_mem (byBase l) (byBase_keys_nodup l) kg h
  rw [dLookup_byBase] at hl
  by_cases hf : l.filter (fun i => decide (pyLower i.base_name = kg.1)) = []
  · rw [if_pos hf] at hl
    exact absurd hl (by simp)
  · rw [if_neg hf] at hl
    have heq := Option.some.inj hl
    exact ⟨heq.symm, heq ▸ hf⟩

theorem nodup_oid_ne {l : List MediaItemV}
    (hnd : (l.map (fun i => i.object_id)).Nodup) {i j : MediaItemV}
    (hi : i ∈ l) (hj : j ∈ l) (hij : i ≠ j) : i.object_id ≠ j.object_id := by
  have hpw : l.Pairwise (fun u v => u.object_id ≠ v.object_id) :=
    List.pairwise_map.mp hnd
  have hsym : Symmetric (fun u v : MediaItemV => u.object_id ≠ v.object_id) :=
    fun u v h he => h he.symm
  exact hpw.forall hsym hi hj hij

theorem byBase_disjoint (l : List MediaItemV)
    (hnd : (l.map (fun i => i.object_id)).Nodup) :
    List.Pairwise (fun a b : Str × List MediaItemV =>
      ∀ x, x ∈ a.2.map (fun i => i.object_id) → x ∉ b.2.map (fun i => i.object_id))
      (byBase l) := by
  have hk : List.Pairwise (fun a b : Str × List MediaItemV => a.1 ≠ b.1) (byBase l) :=
    List.pairwise_map.mp (byBase_keys_nodup l)
  refine hk.imp_of_mem ?_
  intro a b ha hb hne x hxa hxb
  obtain ⟨ea, _⟩ := byBase_entry l a ha
  obtain ⟨eb, _⟩ := byBase_entry l b hb
  rw [ea, List.mem_map] at hxa
  rw [eb, List.mem_map] at hxb
  obtain ⟨i, hi, hix⟩ := hxa
  obtain ⟨j, hj, hjx⟩ := hxb
  rw [List.mem_filter] at hi hj
  have hkey_i : pyLower i.base_name = a.1 := by simpa using hi.2
  have hkey_j : pyLower j.base_name = b.1 := by simpa using hj.2
  have hij : i ≠ j := by
    intro he
    exact hne (by rw [← hkey_i, he, hkey_j])
  exact nodup_oid_ne hnd hi.1 hj.1 hij (hix.trans hjx.symm)

theorem dLookup_gdFold :
    ∀ (gs : List (Str × List MediaItemV)) (gd0 : List (Str × Option DateTimeV)) (oid : Str),
    List.Pairwise (fun a b : Str × List MediaItemV =>
      ∀ x, x ∈ a.2.map (fun i => i.object_id) → x ∉ b.2.map (fun i => i.object_id)) gs →
    dLookup (gs.foldl (fun gd kg => if groupQualifies kg.2 then
        kg.2.foldl (fun gd2 i => dSet gd2 i.object_id (preferredOf kg.2)) gd else gd) gd0)
      oid =
      (gdWriter gs oid).elim (dLookup gd0 oid) (fun kg => some (preferredOf kg.2)) := by
  intro gs
  induction gs with
  | nil => intro gd0 oid _; rfl
  | cons kg tl ih =>
    intro gd0 oid hpw
    have hdi := (List.pairwise_cons.mp hpw).1
    have htl := (List.pairwise_cons.mp hpw).2
    simp only [List.foldl_cons]
    by_cases hq : groupQualifies kg.2
    · rw [if_pos hq]
      by_cases hm : oid ∈ kg.2.map (fun i => i.object_id)
      · have hw : gdWriter (kg :: tl) oid = some kg := by
          unfold gdWriter
          exact List.find?_cons_of_pos _ (by simp [hq, decide_eq_true (by simpa using hm)])
        rw [hw, ih _ _ htl]
        have hnone : gdWriter tl oid = none := by
          unfold gdWriter
          rw [List.find?_eq_none]
          intro x hx hpred
          rw [Bool.and_eq_true] at hpred
          have hmx : oid ∈ x.2.map (fun i => i.object_id) := by
            have := of_decide_eq_true hpred.2
            simpa using this
          exact (hdi x hx oid hm) hmx
        rw [hnone]
        simp only [Option.elim]
        rw [dLookup_foldl_dSet, if_pos hm]
      · have hw : gdWriter (kg :: tl) oid = gdWriter tl oid := by
          unfold gdWriter
          exact List.find?_cons_of_neg _ (by simp [hm])
        rw [hw, ih _ _ htl]
        cases hgw : gdWriter tl oid with
        | some kg2 => simp [Option.elim]
        | none =>
          simp only [Option.elim]
          rw [dLookup_foldl_dSet, if_neg hm]
    · rw [if_neg hq]
      have hw : gdWriter (kg :: tl) oid = gdWriter tl oid := by
        unfold gdWriter
        exact List.find?_cons_of_neg _ (by simp [hq])
      rw [hw, ih _ _ htl]

theorem gdWriter_eq_entry (L : List MediaItemV)
    (hnd : (L.map (fun i => i.object_id)).Nodup)
    (x : MediaItemV) (hx : x ∈ L)
    (hq : groupQualifies (grpOf L x) = true) :
    ∃ kg, gdWriter (byBase L) x.object_id = some kg ∧ kg.2 = grpOf L x := by
  have hxf : x ∈ L.filter (fun i => decide (pyLower i.base_name = pyLower x.base_name)) :=
    List.mem_filter.mpr ⟨hx, by simp⟩
  have hlk : dLookup (byBase L) (pyLower x.base_name) = some (grpOf L x) := by
    rw [dLookup_byBase, if_neg ?_]
    · rfl
    · intro hfe
      rw [hfe] at hxf
      simp at hxf
  have hmem : (pyLower x.base_name, grpOf L x) ∈ byBase L := by
    unfold dLookup at hlk
    cases hf : (byBase L).find? (fun kv => decide (kv.1 = pyLower x.base_name)) with
    | none => rw [hf] at hlk; simp at hlk
    | some kv =>
      rw [hf] at hlk
      have hval : kv.2 = grpOf L x := by
        have h3 : some kv.2 = some (grpOf L x) := by simpa using hlk
        exact Option.some.inj h3
      have hkv_mem := List.mem_of_find?_eq_some hf
      have hpred := List.find?_some hf
      have hkey : kv.1 = pyLower x.base_name := of_decide_eq_true hpred
      have hkv : kv = (pyLower x.base_name, grpOf L x) :=
        Prod.ext_iff.mpr ⟨hkey, hval⟩
      rw [← hkv]
      exact hkv_mem
  have hxoid : x.object_id ∈ (grpOf L x).map (fun i => i.object_id) :=
    List.mem_map.mpr ⟨x, hxf, rfl⟩
  have hsome : (gdWriter (byBase L) x.object_id).isSome := by
    unfold gdWriter
    rw [List.find?_isSome]
    refine ⟨(pyLower x.base_name, grpOf L x), hmem, ?_⟩
    simp only [Bool.and_eq_true]
    exact ⟨hq, by simpa using hxoid⟩
  obtain ⟨kg, hkg⟩ := Option.isSome_iff_exists.mp hsome
  refine ⟨kg, hkg, ?_⟩
  have hkg_mem : kg ∈ byBase L := List.mem_of_find?_eq_some hkg
  have hkg_pred := List.find?_some hkg
  rw [Bool.and_eq_true] at hkg_pred
  have hkg_oid : x.object_id ∈ kg.2.map (fun i => i.object_id) := by
    have h2 := of_decide_eq_true hkg_pred.2
    simpa using h2
  by_cases he : kg = (pyLower x.base_name, grpOf L x)
  · rw [he]
  · have hpw := byBase_disjoint L hnd
    have hsym : Symmetric (fun a b : Str × List MediaItemV =>
        ∀ y, y ∈ a.2.map (fun i => i.object_id) → y ∉ b.2.map (fun i => i.object_id)) := by
      intro a b hab y hyb hya
      exact hab y hya hyb
    have hdisj := hpw.forall hsym hkg_mem hmem he
    exact absurd hxoid (hdisj x.object_id hkg_oid)

theorem effectiveCreated_qualifying (items : List MediaItemV) (x : MediaItemV)
    (hnd : (items.map (fun i => i.object_id)).Nodup) (hx : x ∈ items)
    (hq : groupQualifies (grpOf (_sorted_items items) x) = true) :
    effectiveCreatedOf items true x = preferredOf (grpOf (_sorted_items items) x) := by
  have hperm : (_sorted_items items).Perm items := List.perm_insertionSort itemLE items
  have hndL : ((_sorted_items items).map (fun i => i.object_id)).Nodup :=
    ((hperm.map _).nodup_iff).mpr hnd
  have hxL : x ∈ _sorted_items items := hperm.mem_iff.mpr hx
  obtain ⟨kg, hkg, hkg2⟩ := gdWriter_eq_entry (_sorted_items items) hndL x hxL hq
  unfold effectiveCreatedOf buildGroupDate
  rw [if_pos rfl]
  rw [dLookup_gdFold _ _ _ (byBase_disjoint _ hndL)]
  rw [hkg]
  simp [Option.elim, hkg2]

theorem replaceAllAux_not_contains (pat repl : Str) :
    ∀ (f : ℕ) (s : Str), s.length ≤ f → containsSub pat s = false →
      replaceAllAux pat repl f s = s := by
  intro f
  induction f with
  | zero =>
    intro s hf _
    cases s with
    | nil => rfl
    | cons c rest => simp at hf
  | succ f ih =>
    intro s hf hc
    cases s with
    | nil => rfl
    | cons c rest =>
      simp only [containsSub, Bool.or_eq_false_iff] at hc
      simp only [replaceAllAux]
      rw [if_neg ?_]
      · rw [ih rest (by simp at hf; omega) hc.2]
      · intro hand
        rw [hc.1] at hand
        exact absurd hand.2 (by simp)

theorem replaceAll_not_contains (pat repl s : Str) (hc : containsSub pat s = false) :
    replaceAll pat repl s = s :=
  replaceAllAux_not_contains pat repl s.length s le_rfl hc

theorem replTokens_concat (tokens5 : List (Str × Str)) (e : Str × Str) (t : Str) :
    replTokens (tokens5 ++ [e]) t =
      replaceAll ('{' :: (e.1 ++ ['}'])) e.2 (replTokens tokens5 t) := by
  unfold replTokens
  rw [List.foldl_append]
  rfl

theorem build_tokens_split (c : Option DateTimeV) (dn mt tl : Str) :
    build_tokens c dn mt tl = (build_tokens c dn mt tl).take 5 ++
      [("TYPE".data,
        sanitize_filename (if tl ≠ [] then tl else if mt ≠ [] then mt else "Media".data)
          ("Media".data) none false)] := rfl

theorem build_tokens_take5_indep (c : Option DateTimeV) (dn mt1 tl1 mt2 tl2 : Str) :
    (build_tokens c dn mt1 tl1).take 5 = (build_tokens c dn mt2 tl2).take 5 := rfl

theorem apply_template_type_indep (template : Str) (c : Option DateTimeV)
    (dn mt1 tl1 mt2 tl2 : Str)
    (h : containsSub ("{TYPE}".data)
        (replTokens ((build_tokens c dn mt1 tl1).take 5) template) = false) :
    apply_template template (build_tokens c dn mt1 tl1) =
      apply_template template (build_tokens c dn mt2 tl2) := by
  have e1 : replTokens (build_tokens c dn mt1 tl1) template =
      replTokens ((build_tokens c dn mt1 tl1).take 5) template := by
    conv_lhs => rw [build_tokens_split c dn mt1 tl1]
    rw [replTokens_concat]
    exact replaceAll_not_contains _ _ _ h
  have e2 : replTokens (build_tokens c dn mt2 tl2) template =
      replTokens ((build_tokens c dn mt1 tl1).take 5) template := by
    conv_lhs => rw [build_tokens_split c dn mt2 tl2]
    rw [replTokens_concat, build_tokens_take5_indep c dn mt2 tl2 mt1 tl1]
    exact replaceAll_not_contains _ _ _ h
  unfold apply_template
  rw [e1, e2]

/-- C4 (amended). With `keepLive` set and session-unique object ids, a
qualifying Live-Photo group (same lowercase base name, at least one photo and
one video member) shares one effective creation timestamp — the group's
`preferred` value: the timestamp of the first photo member that has one, else
of any member that has one, else absent — and the photo and video of the pair
are placed under the identical destination parent folder whenever the
substituted template contains no residual `{TYPE}` placeholder (presets A, B,
C, E, F; the `{TYPE}`-based preset D separates the pair by media type, see
the counterexample). -/
theorem C4_live_pair_amended (items : List MediaItemV) (device : DeviceInfoV)
    (options : ImportOptionsV) (a b : MediaItemV)
    (hkl : options.keep_live = true)
    (hnd : (items.map (fun i => i.object_id)).Nodup)
    (ha : a ∈ items) (hb : b ∈ items)
    (hbase : pyLower a.base_name = pyLower b.base_name)
    (hq : groupQualifies (grpOf (_sorted_items items) a) = true) :
    effectiveCreatedOf items true a = preferredOf (grpOf (_sorted_items items) a) ∧
    effectiveCreatedOf items true b = preferredOf (grpOf (_sorted_items items) a) ∧
    (∀ pa pb, pa ∈ (build_plan device items options).items →
      pb ∈ (build_plan device items options).items →
      pa.item = a → pb.item = b →
      containsSub ("{TYPE}".data)
        (replTokens ((build_tokens (preferredOf (grpOf (_sorted_items items) a))
            device.name a.media_type (_type_label a.media_type options.language)).take 5)
          (activeTemplate options)) = false →
      pa.dest_abs_path.dropLast = pb.dest_abs_path.dropLast) := by
  have hgrp_eq : grpOf (_sorted_items items) b = grpOf (_sorted_items items) a := by
    unfold grpOf
    congr 1
    funext i
    rw [hbase]
  have hqb : groupQualifies (grpOf (_sorted_items items) b) = true := by
    rw [hgrp_eq]; exact hq
  have h1 : effectiveCreatedOf items true a =
      preferredOf (grpOf (_sorted_items items) a) :=
    effectiveCreated_qualifying items a hnd ha hq
  have h2 : effectiveCreatedOf items true b =
      preferredOf (grpOf (_sorted_items items) a) := by
    rw [← hgrp_eq]
    exact effectiveCreated_qualifying items b hnd hb hqb
  refine ⟨h1, h2, ?_⟩
  intro pa pb hpa hpb hpaa hpbb hTY
  simp only [build_plan, List.mem_map] at hpa hpb
  obtain ⟨xa, _, hxa⟩ := hpa
  obtain ⟨xb, _, hxb⟩ := hpb
  have hxa_item : xa = a := by
    rw [← hpaa, ← hxa]
    simp [planItemFor]
  have hxb_item : xb = b := by
    rw [← hpbb, ← hxb]
    simp [planItemFor]
  subst hxa_item
  subst hxb_item
  have hgd_a : (dLookup (buildGroupDate (_sorted_items items)) xa.object_id).getD xa.created =
      preferredOf (grpOf (_sorted_items items) xa) := by
    have h1b := h1
    unfold effectiveCreatedOf at h1b
    simpa using h1b
  have hgd_b : (dLookup (buildGroupDate (_sorted_items items)) xb.object_id).getD xb.created =
      preferredOf (grpOf (_sorted_items items) xa) := by
    have h2b := h2
    unfold effectiveCreatedOf at h2b
    simpa using h2b
  rw [← hxa, ← hxb]
  simp only [planItemFor, hkl, if_pos]
  rw [hgd_a, hgd_b]
  have hfold : apply_template (activeTemplate options)
      (build_tokens (preferredOf (grpOf (_sorted_items items) xa)) device.name
        xa.media_type (_type_label xa.media_type options.language)) =
      apply_template (activeTemplate options)
      (build_tokens (preferredOf (grpOf (_sorted_items items) xa)) device.name
        xb.media_type (_type_label xb.media_type options.language)) :=
    apply_template_type_indep _ _ _ _ _ _ _ hTY
  rw [hfold]
  rw [← List.append_assoc, ← List.append_assoc, List.dropLast_concat, List.dropLast_concat]

set_option maxRecDepth 40000 in
/-- Witness for C4: a HEIC/MOV pair sharing base name `IMG_1234` whose raw
timestamps differ by three seconds, planned with preset B, shares the
photo's timestamp and the same parent folder. -/
theorem C4_witness :
    effectiveCreatedOf
        [mkItem ("1".data) ("IMG_1234.HEIC".data) (".HEIC".data) 100
           (some ⟨2024, 6, 1, 10, 30, 0⟩),
         mkItem ("2".data) ("IMG_1234.MOV".data) (".MOV".data) 200
           (some ⟨2024, 6, 1, 10, 30, 3⟩)] true
        (mkItem ("2".data) ("IMG_1234.MOV".data) (".MOV".data) 200
           (some ⟨2024, 6, 1, 10, 30, 3⟩)) =
      some ⟨2024, 6, 1, 10, 30, 0⟩ ∧
    (∀ pa pb,
      pa ∈ (build_plan devA
        [mkItem ("1".data) ("IMG_1234.HEIC".data) (".HEIC".data) 100
           (some ⟨2024, 6, 1, 10, 30, 0⟩),
         mkItem ("2".data) ("IMG_1234.MOV".data) (".MOV".data) 200
           (some ⟨2024, 6, 1, 10, 30, 3⟩)] (mkOpts ("B".data) true)).items →
      pb ∈ (build_plan devA
        [mkItem ("1".data) ("IMG_1234.HEIC".data) (".HEIC".data) 100
           (some ⟨2024, 6, 1, 10, 30, 0⟩),
         mkItem ("2".data) ("IMG_1234.MOV".data) (".MOV".data) 200
           (some ⟨2024, 6, 1, 10, 30, 3⟩)] (mkOpts ("B".data) true)).items →
      pa.item = mkItem ("1".data) ("IMG_1234.HEIC".data) (".HEIC".data) 100
           (some ⟨2024, 6, 1, 10, 30, 0⟩) →
      pb.item = mkItem ("2".data) ("IMG_1234.MOV".data) (".MOV".data) 200
           (some ⟨2024, 6, 1, 10, 30, 3⟩) →
      pa.dest_abs_path.dropLast = pb.dest_abs_path.dropLast) := by
  have H := C4_live_pair_amended
    [mkItem ("1".data) ("IMG_1234.HEIC".data) (".HEIC".data) 100
       (some ⟨2024, 6, 1, 10, 30, 0⟩),
     mkItem ("2".data) ("IMG_1234.MOV".data) (".MOV".data) 200
       (some ⟨2024, 6, 1, 10, 30, 3⟩)]
    devA (mkOpts ("B".data) true)
    (mkItem ("1".data) ("IMG_1234.HEIC".data) (".HEIC".data) 100
       (some ⟨2024, 6, 1, 10, 30, 0⟩))
    (mkItem ("2".data) ("IMG_1234.MOV".data) (".MOV".data) 200
       (some ⟨2024, 6, 1, 10, 30, 3⟩))
    rfl (by decide) (by decide) (by decide) (by decide) (by decide)
  refine ⟨?_, ?_⟩
  · rw [H.2.1]
    decide
  · intro pa pb hpa hpb hia hib
    exact H.2.2 pa pb hpa hpb hia hib (by decide)

set_option maxRecDepth 40000 in
/-- Counterexample to C4 as stated: under the `{TYPE}`-based preset D, a
qualifying Live pair (HEIC photo at 12:00:00, MOV video at 12:00:03, same
base name) is planned into different parent folders (`Fotos/...` versus
`Vídeos/...`), so a qualifying pair is not always placed under the identical
destination parent folder. -/
theorem C4_counterexample :
    groupQualifies (grpOf
        (_sorted_items
          [mkItem ("1".data) ("IMG_1234.HEIC".data) (".HEIC".data) 100
             (some ⟨2024, 5, 10, 12, 0, 0⟩),
           mkItem ("2".data) ("IMG_1234.MOV".data) (".MOV".data) 200
             (some ⟨2024, 5, 10, 12, 0, 3⟩)])
        (mkItem ("1".data) ("IMG_1234.HEIC".data) (".HEIC".data) 100
           (some ⟨2024, 5, 10, 12, 0, 0⟩))) = true ∧
    (mkItem ("1".data) ("IMG_1234.HEIC".data) (".HEIC".data) 100
       (some ⟨2024, 5, 10, 12, 0, 0⟩)).created ≠
      (mkItem ("2".data) ("IMG_1234.MOV".data) (".MOV".data) 200
       (some ⟨2024, 5, 10, 12, 0, 3⟩)).created ∧
    ((build_plan devA
        [mkItem ("1".data) ("IMG_1234.HEIC".data) (".HEIC".data) 100
           (some ⟨2024, 5, 10, 12, 0, 0⟩),
         mkItem ("2".data) ("IMG_1234.MOV".data) (".MOV".data) 200
           (some ⟨2024, 5, 10, 12, 0, 3⟩)]
        (mkOpts ("D".data) true)).items.map (fun p => p.dest_abs_path.dropLast)) =
      [["D:".data, "Dest".data, "Fotos".data, "2024".data, "05".data],
       ["D:".data, "Dest".data, "Vídeos".data, "2024".data, "05".data]] ∧
    (["D:".data, "Dest".data, "Fotos".data, "2024".data, "05".data] : PathT) ≠
      ["D:".data, "Dest".data, "Vídeos".data, "2024".data, "05".data] := by
  refine ⟨by decide, by decide, by decide, by decide⟩

/-! ## ensure_unique_path: the counter loop finds the least free suffix (C2) -/

theorem uniqVariant_inj (p : PathT) {j k : ℕ} (h : uniqVariant p j = uniqVariant p k) :
    j = k := by
  unfold uniqVariant at h
  have h1 : [pyStem (p.getLast?.getD []) ++ ('_' :: natRepr j) ++ pySuffix (p.getLast?.getD [])]
      = [pyStem (p.getLast?.getD []) ++ ('_' :: natRepr k) ++ pySuffix (p.getLast?.getD [])] :=
    List.append_cancel_left h
  have h2 := List.cons.inj h1
  have h3 := List.append_cancel_right h2.1
  have h4 := List.append_cancel_left h3
  have h5 := (List.cons.inj h4).2
  exact natRepr_injective h5

theorem fsGet_ne_none_mem {fs : FS} {p : PathT} (h : fsGet fs p ≠ none) :
    p ∈ fs.map Prod.fst := by
  unfold fsGet at h
  cases hf : fs.find? (fun e => decide (e.1 = p)) with
  | none => rw [hf] at h; simp at h
  | some e =>
    have hmem := List.mem_of_find?_eq_some hf
    have hpred := List.find?_some hf
    have hkey : e.1 = p := of_decide_eq_true hpred
    rw [← hkey]
    exact List.mem_map_of_mem Prod.fst hmem

theorem exists_free_counter (fs : FS) (p : PathT) :
    ∃ j, 1 ≤ j ∧ j < fs.length + 2 ∧ fsGet fs (uniqVariant p j) = none := by
  by_contra hno
  push_neg at hno
  have hmem : ∀ j ∈ List.range (fs.length + 1), uniqVariant p (j + 1) ∈ fs.map Prod.fst := by
    intro j hj
    rw [List.mem_range] at hj
    exact fsGet_ne_none_mem (hno (j + 1) (by omega) (by omega))
  have hnd : ((List.range (fs.length + 1)).map (fun j => uniqVariant p (j + 1))).Nodup := by
    refine List.Nodup.map_on ?_ (List.nodup_range _)
    intro x _ y _ he
    have := uniqVariant_inj p he
    omega
  have hsub : ((List.range (fs.length + 1)).map (fun j => uniqVariant p (j + 1))) ⊆
      fs.map Prod.fst := by
    intro q hq
    rw [List.mem_map] at hq
    obtain ⟨j, hj, rfl⟩ := hq
    exact hmem j hj
  have hlen := (hnd.subperm hsub).length_le
  simp at hlen

theorem findFreeCounter_spec (fs : FS) (p : PathT) :
    ∀ (f k : ℕ), (∃ j, k ≤ j ∧ j < k + f ∧ fsGet fs (uniqVariant p j) = none) →
      (fsGet fs (uniqVariant p (findFreeCounter fs p f k)) = none ∧
       k ≤ findFreeCounter fs p f k ∧
       ∀ j, k ≤ j → j < findFreeCounter fs p f k → fsGet fs (uniqVariant p j) ≠ none) := by
  intro f
  induction f with
  | zero =>
    intro k hex
    obtain ⟨j, hj1, hj2, _⟩ := hex
    omega
  | succ f ih =>
    intro k hex
    simp only [findFreeCounter]
    by_cases h0 : fsGet fs (uniqVariant p k) = none
    · rw [if_pos h0]
      exact ⟨h0, le_rfl, fun j hj1 hj2 => ((by omega : False)).elim⟩
    · rw [if_neg h0]
      obtain ⟨j, hj1, hj2, hj3⟩ := hex
      have hjk : j ≠ k := fun he => h0 (he ▸ hj3)
      obtain ⟨r1, r2, r3⟩ := ih (k + 1) ⟨j, by omega, by omega, hj3⟩
      refine ⟨r1, by omega, ?_⟩
      intro j2 hj21 hj22
      by_cases hj2k : j2 = k
      · rw [hj2k]; exact h0
      · exact r3 j2 (by omega) hj22

theorem ensure_unique_path_spec (fs : FS) (p : PathT) :
    (fsGet fs p = none → ensure_unique_path fs p = p) ∧
    (fsGet fs p ≠ none → ∃ k, 1 ≤ k ∧ ensure_unique_path fs p = uniqVariant p k ∧
      fsGet fs (uniqVariant p k) = none ∧
      ∀ j, 1 ≤ j → j < k → fsGet fs (uniqVariant p j) ≠ none) := by
  constructor
  · intro h
    unfold ensure_unique_path
    rw [if_pos h]
  · intro h
    unfold ensure_unique_path
    rw [if_neg h]
    obtain ⟨j, hj1, hj2, hj3⟩ := exists_free_counter fs p
    obtain ⟨r1, r2, r3⟩ := findFreeCounter_spec fs p (fs.length + 1) 1 ⟨j, hj1, by omega, hj3⟩
    exact ⟨_, r2, rfl, r1, r3⟩

/-- C2. If a plan item's final destination already exists with exactly the
item's declared size (and no cancellation is pending), the iteration takes
the SKIP branch: it increments `skipped`, advances the cumulative byte
counter by the full item size, emits exactly one progress event — in
particular it performs no device read and writes nothing — and continues to
the next item (no break). If the destination exists with a different size,
the iteration proceeds to download toward `ensure_unique_path`, the least
non-colliding variant `parent/stem_k.suffix` with an incrementing numeric
counter `k ≥ 1`. -/
theorem C2_same_size_skip (cfg : XferCfg) (index totalF bytesTotal : ℕ) (st : TState)
    (pi : PlanItemV) (e : ItemEnv) (r : FileRec)
    (hct : e.cancelTop = false)
    (hfs : fsGet st.fs pi.dest_abs_path = some r) :
    (r.size = pi.item.size →
      stepBody cfg index totalF bytesTotal st pi e =
        ({ st with skipped := st.skipped + 1, bytesDone := st.bytesDone + pi.item.size },
         none,
         [TEvent.progress index totalF pi.item.name pi.item.size pi.item.size
            (st.bytesDone + pi.item.size) bytesTotal])) ∧
    (r.size ≠ pi.item.size →
      stepBody cfg index totalF bytesTotal st pi e =
        downloadPart cfg st pi.item (tempOf cfg pi)
          (ensure_unique_path st.fs pi.dest_abs_path) e ∧
      ∃ k, 1 ≤ k ∧
        ensure_unique_path st.fs pi.dest_abs_path = uniqVariant pi.dest_abs_path k ∧
        fsGet st.fs (uniqVariant pi.dest_abs_path k) = none ∧
        ∀ j, 1 ≤ j → j < k → fsGet st.fs (uniqVariant pi.dest_abs_path j) ≠ none) := by
  constructor
  · intro hsz
    unfold stepBody
    rw [if_neg (by rw [hct]; exact Bool.false_ne_true), hfs]
    simp only
    rw [if_pos hsz]
  · intro hsz
    constructor
    · unfold stepBody
      rw [if_neg (by rw [hct]; exact Bool.false_ne_true), hfs]
      simp only
      rw [if_neg hsz]
    · exact (ensure_unique_path_spec st.fs pi.dest_abs_path).2 (by rw [hfs]; simp)

/-- Witness for C2: a concrete iteration over a destination that already
holds a 100-byte file for a 100-byte item is counted as skipped with one
progress event and no device read. -/
theorem C2_witness :
    stepBody
      { destRoot := ["D:".data, "Dest".data], fs0 := [], canConvert := false,
        hash := fun _ => "h".data }
      1 1 100
      { fs := [(["D:".data, "Dest".data, "2024".data, "a.jpg".data],
                ({ size := 100, complete := true } : FileRec))],
        copied := 0, skipped := 0, failed := 0, converted := 0, errors := 0, bytesDone := 0 }
      { item := mkItem ("1".data) ("a.jpg".data) (".jpg".data) 100 none,
        dest_rel_parts := ["2024".data, "a.jpg".data],
        dest_abs_path := ["D:".data, "Dest".data, "2024".data, "a.jpg".data] }
      { cancelTop := false, dl := DlOutcome.ok 100, cancelAfter := false,
        convOk := false, convBytes := 0 } =
      ({ fs := [(["D:".data, "Dest".data, "2024".data, "a.jpg".data],
                 ({ size := 100, complete := true } : FileRec))],
         copied := 0, skipped := 1, failed := 0, converted := 0, errors := 0,
         bytesDone := 100 },
       none,
       [TEvent.progress 1 1 ("a.jpg".data) 100 100 100 100]) :=
  (C2_same_size_skip
    { destRoot := ["D:".data, "Dest".data], fs0 := [], canConvert := false,
      hash := fun _ => "h".data }
    1 1 100
    { fs := [(["D:".data, "Dest".data, "2024".data, "a.jpg".data],
              ({ size := 100, complete := true } : FileRec))],
      copied := 0, skipped := 0, failed := 0, converted := 0, errors := 0, bytesDone := 0 }
    { item := mkItem ("1".data) ("a.jpg".data) (".jpg".data) 100 none,
      dest_rel_parts := ["2024".data, "a.jpg".data],
      dest_abs_path := ["D:".data, "Dest".data, "2024".data, "a.jpg".data] }
    { cancelTop := false, dl := DlOutcome.ok 100, cancelAfter := false,
      convOk := false, convBytes := 0 }
    { size := 100, complete := true } rfl (by decide)).1 rfl

/-! ## Counting invariants of the transfer loop (C10, C3) -/

theorem downloadPart_acct (cfg : XferCfg) (st : TState) (item : MediaItemV)
    (temp dest : PathT) (e : ItemEnv) :
    acct (downloadPart cfg st item temp dest e).1 =
      acct st +
        (if (downloadPart cfg st item temp dest e).2.1 = some BrkReason.cancel then 0
         else 1) := by
  unfold downloadPart
  rcases hdl : e.dl with b | w | w | w
  · by_cases hca : e.cancelAfter = true
    · simp [hca, acct]
    · simp [hca, acct]
      omega
  · by_cases hca : e.cancelAfter = true
    · simp [hca, acct]
    · simp [hca, acct]
      omega
  · simp [acct]
    omega
  · simp [acct]
    omega

theorem stepBody_acct (cfg : XferCfg) (index totalF bytesTotal : ℕ) (st : TState)
    (pi : PlanItemV) (e : ItemEnv) :
    acct (stepBody cfg index totalF bytesTotal st pi e).1 =
      acct st +
        (if (stepBody cfg index totalF bytesTotal st pi e).2.1 = some BrkReason.cancel
         then 0 else 1) := by
  unfold stepBody
  by_cases hct : e.cancelTop = true
  · simp [hct]
  · rw [if_neg hct]
    simp only
    cases hfs : fsGet st.fs pi.dest_abs_path with
    | some r =>
      simp only
      by_cases hsz : r.size = pi.item.size
      · simp [hsz, acct]
        omega
      · simp only [if_neg hsz]
        exact downloadPart_acct cfg st pi.item (tempOf cfg pi)
          (ensure_unique_path st.fs pi.dest_abs_path) e
    | none =>
      simp only
      exact downloadPart_acct cfg st pi.item (tempOf cfg pi) pi.dest_abs_path e

theorem stepBody_brk_not_cancel (cfg : XferCfg) (index totalF bytesTotal : ℕ) (st : TState)
    (pi : PlanItemV) (e : ItemEnv)
    (hct : e.cancelTop = false) (hca : e.cancelAfter = false) :
    (stepBody cfg index totalF bytesTotal st pi e).2.1 ≠ some BrkReason.cancel := by
  unfold stepBody
  rw [if_neg (by rw [hct]; exact Bool.false_ne_true)]
  simp only
  cases hfs : fsGet st.fs pi.dest_abs_path with
  | some r =>
    simp only
    by_cases hsz : r.size = pi.item.size
    · simp [hsz]
    · simp only [if_neg hsz]
      unfold downloadPart
      rcases hdl : e.dl with b | w | w | w <;> simp [hca]
  | none =>
    simp only
    unfold downloadPart
    rcases hdl : e.dl with b | w | w | w <;> simp [hca]

theorem runItems_acct (cfg : XferCfg) (totalF bytesTotal : ℕ) :
    ∀ (pairs : List (PlanItemV × ItemEnv)) (st : TState) (i last0 : ℕ),
    ((runItems cfg totalF bytesTotal st i last0 pairs).2.2.1 = false →
      acct (runItems cfg totalF bytesTotal st i last0 pairs).1 ≤ acct st + pairs.length) ∧
    ((runItems cfg totalF bytesTotal st i last0 pairs).2.2.1 = true →
      ∃ m, m < pairs.length ∧
        (runItems cfg totalF bytesTotal st i last0 pairs).2.1 = i + m ∧
        acct (runItems cfg totalF bytesTotal st i last0 pairs).1 ≤ acct st + m + 1) := by
  intro pairs
  induction pairs with
  | nil =>
    intro st i last0
    constructor
    · intro _
      simp [runItems]
    · intro hdisc
      simp [runItems] at hdisc
  | cons pe rest ih =>
    intro st i last0
    obtain ⟨p, e⟩ := pe
    have hacct := stepBody_acct cfg i totalF bytesTotal st p e
    simp only [runItems]
    rcases hstep : stepBody cfg i totalF bytesTotal st p e with ⟨st2, brk, evs⟩
    rw [hstep] at hacct
    rcases brk with _ | br
    · simp only
      obtain ⟨ihf, iht⟩ := ih st2 (i + 1) i
      constructor
      · intro hdisc
        have h1 := ihf hdisc
        simp at hacct
        simp only [List.length_cons]
        omega
      · intro hdisc
        obtain ⟨m, hm1, hm2, hm3⟩ := iht hdisc
        refine ⟨m + 1, by simp; omega, by omega, ?_⟩
        simp at hacct
        omega
    · cases br
      · simp only
        constructor
        · intro _
          simp at hacct
          simp only [List.length_cons]
          omega
        · intro hdisc
          simp at hdisc
      · simp only
        constructor
        · intro hdisc
          simp at hdisc
        · intro _
          refine ⟨0, by simp, by omega, ?_⟩
          simp at hacct
          omega

theorem runItems_acct_exact (cfg : XferCfg) (totalF bytesTotal : ℕ) :
    ∀ (pairs : List (PlanItemV × ItemEnv)) (st : TState) (i last0 : ℕ),
    (∀ e ∈ pairs.map Prod.snd, e.cancelTop = false ∧ e.cancelAfter = false) →
    (runItems cfg totalF bytesTotal st i last0 pairs).2.2.1 = false →
    acct (runItems cfg totalF bytesTotal st i last0 pairs).1 = acct st + pairs.length := by
  intro pairs
  induction pairs with
  | nil =>
    intro st i last0 _ _
    simp [runItems]
  | cons pe rest ih =>
    intro st i last0 hreads hdisc
    obtain ⟨p, e⟩ := pe
    have hct : e.cancelTop = false := (hreads e (by simp)).1
    have hca : e.cancelAfter = false := (hreads e (by simp)).2
    have hnc := stepBody_brk_not_cancel cfg i totalF bytesTotal st p e hct hca
    have hacct := stepBody_acct cfg i totalF bytesTotal st p e
    simp only [runItems] at hdisc ⊢
    rcases hstep : stepBody cfg i totalF bytesTotal st p e with ⟨st2, brk, evs⟩
    rw [hstep] at hacct hnc hdisc
    rcases brk with _ | br
    · simp only at hdisc ⊢
      simp at hacct
      rw [ih st2 (i + 1) i (fun x hx => hreads x (by simp [hx])) hdisc]
      simp only [List.length_cons]
      omega
    · cases br
      · exact absurd rfl hnc
      · simp at hdisc

theorem fsGet_fsSet_same (fs : FS) (p : PathT) (r : FileRec) :
    fsGet (fsSet fs p r) p = some r := by
  unfold fsGet fsSet
  rw [List.find?_cons_of_pos]
  · rfl
  · simp

theorem mem_fsSet {fs : FS} {p : PathT} {r : FileRec} {pr : PathT × FileRec}
    (h : pr ∈ fsSet fs p r) : pr = (p, r) ∨ pr ∈ fs := by
  unfold fsSet fsRemove at h
  rcases List.mem_cons.mp h with h1 | h2
  · exact Or.inl h1
  · exact Or.inr (List.mem_of_mem_filter h2)

theorem mem_fsRemove {fs : FS} {p : PathT} {pr : PathT × FileRec}
    (h : pr ∈ fsRemove fs p) : pr ∈ fs ∧ pr.1 ≠ p := by
  unfold fsRemove at h
  have h1 := List.mem_filter.mp h
  exact ⟨h1.1, by simpa using h1.2⟩

theorem fsGet_some_mem {fs : FS} {p : PathT} {r : FileRec} (h : fsGet fs p = some r) :
    (p, r) ∈ fs := by
  unfold fsGet at h
  cases hf : fs.find? (fun e => decide (e.1 = p)) with
  | none => rw [hf] at h; cases h
  | some kv =>
    rw [hf] at h
    have h2 : kv.2 = r := by simpa using h
    have h3 := List.mem_of_find?_eq_some hf
    have h4 := List.find?_some hf
    have h5 : kv.1 = p := of_decide_eq_true h4
    have h6 : (p, r) = kv := by rw [← h5, ← h2]
    rw [h6]
    exact h3

theorem isPartChild_temp (cfg : XferCfg) (rel oid : Str) :
    isPartChild cfg (temp_path_for cfg rel oid) = true := by
  unfold isPartChild temp_path_for
  rw [List.dropLast_concat, List.getLast?_concat]
  simp only [decide_eq_true_eq]
  rw [Bool.and_eq_true]
  refine ⟨by simp, ?_⟩
  rw [List.isSuffixOf_iff_suffix]
  exact List.suffix_append _ _

theorem isPartChild_dropLast {cfg : XferCfg} {p : PathT}
    (h : isPartChild cfg p = true) : p.dropLast = tmpDir cfg := by
  unfold isPartChild at h
  rw [Bool.and_eq_true] at h
  exact of_decide_eq_true h.1

theorem applyEvents_append (fs : FS) (l1 l2 : List TEvent) :
    applyEvents fs (l1 ++ l2) = applyEvents (applyEvents fs l1) l2 := by
  unfold applyEvents
  exact List.foldl_append _ _ _ _

theorem evsOK_append (cfg : XferCfg) :
    ∀ (l1 l2 : List TEvent) (fs : FS),
    EvsOK cfg fs (l1 ++ l2) ↔ EvsOK cfg fs l1 ∧ EvsOK cfg (applyEvents fs l1) l2 := by
  intro l1
  induction l1 with
  | nil =>
    intro l2 fs
    simp [EvsOK, applyEvents]
  | cons ev rest ih =>
    intro l2 fs
    simp only [List.cons_append, EvsOK, List.append_eq]
    rw [ih l2 (applyEvent fs ev)]
    have hfs : applyEvents (applyEvent fs ev) rest = applyEvents fs (ev :: rest) := rfl
    rw [hfs]
    tauto

theorem evsOK_removes (cfg : XferCfg) :
    ∀ (L : List PathT) (fs : FS), EvsOK cfg fs (L.map TEvent.removed) := by
  intro L
  induction L with
  | nil => intro fs; exact trivial
  | cons p L2 ih => intro fs; exact ⟨trivial, ih (applyEvent fs (TEvent.removed p))⟩

theorem inv_applyEvent (cfg : XferCfg) (fs : FS) (ev : TEvent)
    (hev : EvsOK cfg fs [ev]) (hinv : IncompleteOnlyTmp cfg fs) :
    IncompleteOnlyTmp cfg (applyEvent fs ev) := by
  cases ev with
  | progress a b c d f g k => exact hinv
  | read oid => exact hinv
  | wroteTemp p n c =>
    have h1 : c = false → isPartChild cfg p = true := hev.1
    intro pr hpr hinc
    rcases mem_fsSet hpr with h2 | h2
    · rw [h2] at hinc ⊢
      exact h1 hinc
    · exact hinv pr h2 hinc
  | renamed tmp dst =>
    obtain ⟨r, hr, hrc⟩ := hev.1
    intro pr hpr hinc
    have happ : applyEvent fs (TEvent.renamed tmp dst) = fsSet (fsRemove fs tmp) dst r := by
      show (match fsGet fs tmp with
            | some r2 => fsSet (fsRemove fs tmp) dst r2
            | none => fs) = fsSet (fsRemove fs tmp) dst r
      rw [hr]
    rw [happ] at hpr
    rcases mem_fsSet hpr with h2 | h2
    · have hcf : r.complete = false := by rw [h2] at hinc; exact hinc
      rw [hrc] at hcf
      exact Bool.noConfusion hcf
    · exact hinv pr (mem_fsRemove h2).1 hinc
  | removed p =>
    intro pr hpr hinc
    exact hinv pr (mem_fsRemove hpr).1 hinc
  | wroteCompat p n =>
    intro pr hpr hinc
    rcases mem_fsSet hpr with h2 | h2
    · have hcf : ({ size := n, complete := true } : FileRec).complete = false := by
        rw [h2] at hinc
        exact hinc
      exact Bool.noConfusion hcf
    · exact hinv pr h2 hinc

theorem invariant_evs (cfg : XferCfg) :
    ∀ (evs : List TEvent) (fs : FS), EvsOK cfg fs evs → IncompleteOnlyTmp cfg fs →
    ∀ n, IncompleteOnlyTmp cfg (applyEvents fs (evs.take n)) := by
  intro evs
  induction evs with
  | nil =>
    intro fs _ hinv n
    simpa [applyEvents] using hinv
  | cons ev rest ih =>
    intro fs hok hinv n
    cases n with
    | zero => simpa [applyEvents] using hinv
    | succ m =>
      have h1 := inv_applyEvent cfg fs ev ⟨hok.1, trivial⟩ hinv
      have h2 := ih (applyEvent fs ev) hok.2 h1 m
      simpa [applyEvents, List.take_succ_cons] using h2

theorem invariant_evs_all (cfg : XferCfg) (evs : List TEvent) (fs : FS)
    (hok : EvsOK cfg fs evs) (hinv : IncompleteOnlyTmp cfg fs) :
    IncompleteOnlyTmp cfg (applyEvents fs evs) := by
  have h := invariant_evs cfg evs fs hok hinv evs.length
  rwa [List.take_length] at h

theorem applyEvents_removeAll :
    ∀ (L : List PathT) (fs : FS),
    applyEvents fs (L.map TEvent.removed) = fs.filter (fun e => decide (e.1 ∉ L)) := by
  intro L
  induction L with
  | nil =>
    intro fs
    simp [applyEvents]
  | cons p L2 ih =>
    intro fs
    have h0 : applyEvents fs ((p :: L2).map TEvent.removed) =
        applyEvents (applyEvent fs (TEvent.removed p)) (L2.map TEvent.removed) := rfl
    rw [h0, ih]
    have h1 : applyEvent fs (TEvent.removed p) = fs.filter (fun e => decide (e.1 ≠ p)) := rfl
    rw [h1, List.filter_filter]
    congr 1
    funext e
    by_cases h2 : e.1 = p <;> by_cases h3 : e.1 ∈ L2 <;> simp [h2, h3]

theorem cleanup_sound (cfg : XferCfg) (fs : FS) :
    ∀ pr ∈ applyEvents fs (cleanupParts cfg fs), pr ∈ fs ∧ isPartChild cfg pr.1 = false := by
  intro pr hpr
  unfold cleanupParts at hpr
  rw [applyEvents_removeAll] at hpr
  have h1 := List.mem_filter.mp hpr
  refine ⟨h1.1, ?_⟩
  have h2 : pr.1 ∉ (fs.map (fun e => e.1)).filter (fun q => isPartChild cfg q) :=
    of_decide_eq_true h1.2
  cases hip : isPartChild cfg pr.1 with
  | false => rfl
  | true =>
    exact absurd (List.mem_filter.mpr ⟨List.mem_map_of_mem (fun e => e.1) h1.1, hip⟩) h2

theorem downloadPart_fs_evs (cfg : XferCfg) (st : TState) (item : MediaItemV)
    (temp dest : PathT) (e : ItemEnv) (htemp : isPartChild cfg temp = true) :
    (downloadPart cfg st item temp dest e).1.fs =
      applyEvents st.fs (downloadPart cfg st item temp dest e).2.2 ∧
    EvsOK cfg st.fs (downloadPart cfg st item temp dest e).2.2 := by
  unfold downloadPart
  rcases hdl : e.dl with b | w | w | w
  · simp only
    by_cases hca : e.cancelAfter = true
    · rw [if_pos hca]
      simp [EvsOK, dlWriteEvents, htemp]
    · rw [if_neg hca]
      by_cases hcc : cfg.canConvert = true
      · rw [if_pos hcc]
        cases hco : convOutcome item dest with
        | some cp =>
          simp only
          by_cases hok2 : e.convOk = true
          · rw [if_pos hok2]
            simp [EvsOK, dlWriteEvents, htemp]
            exact ⟨⟨b, true⟩, fsGet_fsSet_same _ _ _, rfl⟩
          · rw [if_neg hok2]
            simp [EvsOK, dlWriteEvents, htemp]
            exact ⟨⟨b, true⟩, fsGet_fsSet_same _ _ _, rfl⟩
        | none =>
          simp [EvsOK, dlWriteEvents, htemp]
          exact ⟨⟨b, true⟩, fsGet_fsSet_same _ _ _, rfl⟩
      · rw [if_neg hcc]
        simp [EvsOK, dlWriteEvents, htemp]
        exact ⟨⟨b, true⟩, fsGet_fsSet_same _ _ _, rfl⟩
  · simp only
    cases w with
    | some b =>
      by_cases hca : e.cancelAfter = true
      · rw [if_pos hca]
        simp [EvsOK, dlWriteEvents, htemp]
      · rw [if_neg hca]
        simp [EvsOK, dlWriteEvents, htemp]
    | none =>
      by_cases hca : e.cancelAfter = true
      · rw [if_pos hca]
        simp [EvsOK, dlWriteEvents]
      · rw [if_neg hca]
        simp [EvsOK, dlWriteEvents]
  · simp only
    cases w with
    | some b => simp [EvsOK, dlWriteEvents, htemp]
    | none => simp [EvsOK, dlWriteEvents]
  · simp only
    cases w with
    | some b => simp [EvsOK, dlWriteEvents, htemp]
    | none => simp [EvsOK, dlWriteEvents]

theorem stepBody_fs_evs (cfg : XferCfg) (index totalF bytesTotal : ℕ) (st : TState)
    (pi : PlanItemV) (e : ItemEnv) :
    (stepBody cfg index totalF bytesTotal st pi e).1.fs =
      applyEvents st.fs (stepBody cfg index totalF bytesTotal st pi e).2.2 ∧
    EvsOK cfg st.fs (stepBody cfg index totalF bytesTotal st pi e).2.2 := by
  unfold stepBody
  by_cases hct : e.cancelTop = true
  · rw [if_pos hct]
    exact ⟨rfl, trivial⟩
  · rw [if_neg hct]
    simp only
    cases hfs : fsGet st.fs pi.dest_abs_path with
    | some r =>
      simp only
      by_cases hsz : r.size = pi.item.size
      · simp only [if_pos hsz]
        exact ⟨rfl, trivial, trivial⟩
      · simp only [if_neg hsz]
        exact downloadPart_fs_evs cfg st pi.item (tempOf cfg pi)
          (ensure_unique_path st.fs pi.dest_abs_path) e
          (isPartChild_temp cfg (joinPosix pi.dest_rel_parts) pi.item.object_id)
    | none =>
      simp only
      exact downloadPart_fs_evs cfg st pi.item (tempOf cfg pi) pi.dest_abs_path e
        (isPartChild_temp cfg (joinPosix pi.dest_rel_parts) pi.item.object_id)

theorem runItems_fs_evs (cfg : XferCfg) (totalF bytesTotal : ℕ) :
    ∀ (pairs : List (PlanItemV × ItemEnv)) (st : TState) (i last0 : ℕ),
    (runItems cfg totalF bytesTotal st i last0 pairs).1.fs =
      applyEvents st.fs (runItems cfg totalF bytesTotal st i last0 pairs).2.2.2 ∧
    EvsOK cfg st.fs (runItems cfg totalF bytesTotal st i last0 pairs).2.2.2 := by
  intro pairs
  induction pairs with
  | nil =>
    intro st i last0
    exact ⟨rfl, trivial⟩
  | cons pe rest ih =>
    intro st i last0
    obtain ⟨p, e⟩ := pe
    have hstep2 := stepBody_fs_evs cfg i totalF bytesTotal st p e
    simp only [runItems]
    rcases hstep : stepBody cfg i totalF bytesTotal st p e with ⟨st2, brk, evs⟩
    rw [hstep] at hstep2
    have hfs2 : st2.fs = applyEvents st.fs evs := hstep2.1
    have hok2 : EvsOK cfg st.fs evs := hstep2.2
    rcases brk with _ | br
    · simp only
      obtain ⟨ih1, ih2⟩ := ih st2 (i + 1) i
      constructor
      · rw [ih1, hfs2, applyEvents_append]
      · refine (evsOK_append cfg evs _ st.fs).mpr ⟨hok2, ?_⟩
        rw [← hfs2]
        exact ih2
    · cases br
      · simp only
        exact ⟨hfs2, hok2⟩
      · simp only
        exact ⟨hfs2, hok2⟩

theorem execute_fs_trace (cfg : XferCfg) (plan : ImportPlanV) (env : XferEnv) :
    (execute_transfer cfg plan env).fs =
      applyEvents cfg.fs0 (execute_transfer cfg plan env).trace ∧
    EvsOK cfg cfg.fs0 (execute_transfer cfg plan env).trace := by
  by_cases hof : env.openFail = true
  · constructor
    · simp [execute_transfer, hof, initState]
    · by_cases hfc : env.finalCancel = true
      · have htr : (execute_transfer cfg plan env).trace = cleanupParts cfg cfg.fs0 := by
          simp [execute_transfer, hof, hfc, initState]
        rw [htr]
        exact evsOK_removes cfg _ cfg.fs0
      · have htr : (execute_transfer cfg plan env).trace = [] := by
          simp [execute_transfer, hof, hfc]
        rw [htr]
        exact trivial
  · have hRfs := runItems_fs_evs cfg plan.items.length plan.total_size
      (plan.items.zip env.items) (initState cfg) 1 0
    rcases hR : runItems cfg plan.items.length plan.total_size (initState cfg) 1 0
        (plan.items.zip env.items) with ⟨st1, last, disc, evs⟩
    rw [hR] at hRfs
    have hfs1 : st1.fs = applyEvents cfg.fs0 evs := hRfs.1
    have hok1 : EvsOK cfg cfg.fs0 evs := hRfs.2
    cases hdisc : disc with
    | true =>
      by_cases hfc : env.finalCancel = true
      · constructor
        · simp [execute_transfer, hof, hR, hdisc, hfc, hfs1, applyEvents_append]
        · simp [execute_transfer, hof, hR, hdisc, hfc]
          refine (evsOK_append cfg evs _ cfg.fs0).mpr ⟨hok1, ?_⟩
          exact evsOK_removes cfg _ _
      · constructor
        · simp [execute_transfer, hof, hR, hdisc, hfc, hfs1, applyEvents]
        · simp [execute_transfer, hof, hR, hdisc, hfc]
          exact hok1
    | false =>
      by_cases hfc : env.finalCancel = true
      · constructor
        · simp [execute_transfer, hof, hR, hdisc, hfc, hfs1, applyEvents_append]
        · simp [execute_transfer, hof, hR, hdisc, hfc]
          refine (evsOK_append cfg evs _ cfg.fs0).mpr ⟨hok1, ?_⟩
          exact evsOK_removes cfg _ _
      · constructor
        · simp [execute_transfer, hof, hR, hdisc, hfc, hfs1, applyEvents]
        · simp [execute_transfer, hof, hR, hdisc, hfc]
          exact hok1

theorem execute_fs_cancelled (cfg : XferCfg) (plan : ImportPlanV) (env : XferEnv)
    (hfc : env.finalCancel = true) :
    ∃ S : FS, ∃ l : List TEvent,
      EvsOK cfg cfg.fs0 l ∧ S = applyEvents cfg.fs0 l ∧
      (execute_transfer cfg plan env).fs = applyEvents S (cleanupParts cfg S) := by
  by_cases hof : env.openFail = true
  · refine ⟨cfg.fs0, [], trivial, rfl, ?_⟩
    simp [execute_transfer, hof, hfc, initState, applyEvents]
  · have hRfs := runItems_fs_evs cfg plan.items.length plan.total_size
      (plan.items.zip env.items) (initState cfg) 1 0
    rcases hR : runItems cfg plan.items.length plan.total_size (initState cfg) 1 0
        (plan.items.zip env.items) with ⟨st1, last, disc, evs⟩
    rw [hR] at hRfs
    have hfs1 : st1.fs = applyEvents cfg.fs0 evs := hRfs.1
    have hok1 : EvsOK cfg cfg.fs0 evs := hRfs.2
    refine ⟨st1.fs, evs, hok1, hfs1, ?_⟩
    cases hdisc : disc with
    | true => simp [execute_transfer, hof, hR, hdisc, hfc]
    | false => simp [execute_transfer, hof, hR, hdisc, hfc]

/-- C1. Write-safety of a transfer run: (i) every event of the run's trace
is safe — a partially-written (incomplete) file is only ever written at a
`*.part` path directly under the staging directory, and the source of every
atomic rename is a fully-streamed (complete) file at the moment of the
rename; (ii) hence at every point of the run every incomplete file on disk
is a staging `*.part` file (given a starting filesystem with that property);
(iii) hence no plan item's final destination path ever holds a
partially-written file at any point of the run (given that no destination
path's parent is the staging directory); and (iv) after a cancelled run the
final filesystem holds no `*.part` file under the staging directory, and no
incomplete file at all. -/
theorem C1_no_partial_at_destination (cfg : XferCfg) (plan : ImportPlanV) (env : XferEnv)
    (hclean : IncompleteOnlyTmp cfg cfg.fs0)
    (hdest : ∀ pi ∈ plan.items, pi.dest_abs_path.dropLast ≠ tmpDir cfg) :
    EvsOK cfg cfg.fs0 (execute_transfer cfg plan env).trace ∧
    (∀ n, IncompleteOnlyTmp cfg
        (applyEvents cfg.fs0 ((execute_transfer cfg plan env).trace.take n))) ∧
    (∀ n, ∀ pi ∈ plan.items, ∀ r,
        fsGet (applyEvents cfg.fs0 ((execute_transfer cfg plan env).trace.take n))
          pi.dest_abs_path = some r → r.complete = true) ∧
    (env.finalCancel = true →
        ∀ pr ∈ (execute_transfer cfg plan env).fs,
          isPartChild cfg pr.1 = false ∧ pr.2.complete = true) := by
  obtain ⟨hfseq, hok⟩ := execute_fs_trace cfg plan env
  have hinvn := invariant_evs cfg (execute_transfer cfg plan env).trace cfg.fs0 hok hclean
  refine ⟨hok, hinvn, ?_, ?_⟩
  · intro n pi hpi r hget
    cases hc : r.complete with
    | true => rfl
    | false =>
      have hmem := fsGet_some_mem hget
      have hpart := hinvn n (pi.dest_abs_path, r) hmem hc
      exact absurd (isPartChild_dropLast hpart) (hdest pi hpi)
  · intro hfc pr hpr
    obtain ⟨S, l, hokl, hSeq, hfseq2⟩ := execute_fs_cancelled cfg plan env hfc
    rw [hfseq2] at hpr
    obtain ⟨hprS, hnp⟩ := cleanup_sound cfg S pr hpr
    have hinvS : IncompleteOnlyTmp cfg S := by
      rw [hSeq]
      exact invariant_evs_all cfg l cfg.fs0 hokl hclean
    refine ⟨hnp, ?_⟩
    cases hc : pr.2.complete with
    | true => rfl
    | false =>
      have := hinvS pr hprS hc
      rw [this] at hnp
      exact Bool.noConfusion hnp

/-- Witness for C1 on the three-item fixture run (which includes a
mid-stream failure whose partial temp file is deleted): empty starting
filesystem, destination parents distinct from the staging directory. -/
theorem C1_witness :
    EvsOK c3cfg c3cfg.fs0 (execute_transfer c3cfg c3plan c3env).trace ∧
    (∀ n, IncompleteOnlyTmp c3cfg
        (applyEvents c3cfg.fs0 ((execute_transfer c3cfg c3plan c3env).trace.take n))) ∧
    (∀ n, ∀ pi ∈ c3plan.items, ∀ r,
        fsGet (applyEvents c3cfg.fs0 ((execute_transfer c3cfg c3plan c3env).trace.take n))
          pi.dest_abs_path = some r → r.complete = true) ∧
    (c3env.finalCancel = true →
        ∀ pr ∈ (execute_transfer c3cfg c3plan c3env).fs,
          isPartChild c3cfg pr.1 = false ∧ pr.2.complete = true) :=
  C1_no_partial_at_destination c3cfg c3plan c3env
    (by intro pr hpr hinc; exact absurd hpr (List.not_mem_nil pr))
    (by decide)

theorem stepBody_noBrk (cfg : XferCfg) (index totalF bytesTotal : ℕ) (st : TState)
    (pi : PlanItemV) (e : ItemEnv) (hnb : NoBrkEnv e) :
    (stepBody cfg index totalF bytesTotal st pi e).2.1 = none := by
  obtain ⟨hct, hca, hcom⟩ := hnb
  unfold stepBody
  rw [if_neg (by rw [hct]; exact Bool.false_ne_true)]
  simp only
  cases hfs : fsGet st.fs pi.dest_abs_path with
  | some r =>
    simp only
    by_cases hsz : r.size = pi.item.size
    · simp [hsz]
    · simp only [if_neg hsz]
      unfold downloadPart
      rcases hdl : e.dl with b | w | w | w
      · simp [hca]
      · simp [hca]
      · exact absurd hdl (hcom w)
      · simp
  | none =>
    simp only
    unfold downloadPart
    rcases hdl : e.dl with b | w | w | w
    · simp [hca]
    · simp [hca]
    · exact absurd hdl (hcom w)
    · simp

theorem stepBody_com (cfg : XferCfg) (index totalF bytesTotal : ℕ) (st : TState)
    (pi : PlanItemV) (ec : ItemEnv) (hct : ec.cancelTop = false) (w : Option ℕ)
    (hdl : ec.dl = DlOutcome.raiseCom w) (hskip : skipsItem st pi = false) :
    (stepBody cfg index totalF bytesTotal st pi ec).2.1 = some BrkReason.com ∧
    (stepBody cfg index totalF bytesTotal st pi ec).1.failed = st.failed + 1 ∧
    (stepBody cfg index totalF bytesTotal st pi ec).1.copied = st.copied ∧
    (stepBody cfg index totalF bytesTotal st pi ec).1.skipped = st.skipped := by
  unfold skipsItem at hskip
  unfold stepBody
  rw [if_neg (by rw [hct]; exact Bool.false_ne_true)]
  simp only
  cases hfs : fsGet st.fs pi.dest_abs_path with
  | some r =>
    rw [hfs] at hskip
    simp at hskip
    simp only
    simp only [if_neg hskip]
    unfold downloadPart
    rw [hdl]
    simp
  | none =>
    simp only
    unfold downloadPart
    rw [hdl]
    simp

theorem runItems_append_noBrk (cfg : XferCfg) (totalF bytesTotal : ℕ) :
    ∀ (pre rest : List (PlanItemV × ItemEnv)) (st : TState) (i last0 : ℕ),
    (∀ pe ∈ pre, NoBrkEnv pe.2) →
    runItems cfg totalF bytesTotal st i last0 (pre ++ rest) =
      ((runItems cfg totalF bytesTotal (runItems cfg totalF bytesTotal st i last0 pre).1
          (i + pre.length) (runItems cfg totalF bytesTotal st i last0 pre).2.1 rest).1,
       (runItems cfg totalF bytesTotal (runItems cfg totalF bytesTotal st i last0 pre).1
          (i + pre.length) (runItems cfg totalF bytesTotal st i last0 pre).2.1 rest).2.1,
       (runItems cfg totalF bytesTotal (runItems cfg totalF bytesTotal st i last0 pre).1
          (i + pre.length) (runItems cfg totalF bytesTotal st i last0 pre).2.1 rest).2.2.1,
       (runItems cfg totalF bytesTotal st i last0 pre).2.2.2 ++
         (runItems cfg totalF bytesTotal (runItems cfg totalF bytesTotal st i last0 pre).1
            (i + pre.length) (runItems cfg totalF bytesTotal st i last0 pre).2.1
            rest).2.2.2) := by
  intro pre
  induction pre with
  | nil =>
    intro rest st i last0 _
    simp only [List.nil_append, runItems, List.length_nil, Nat.add_zero]
  | cons pe pre2 ih =>
    intro rest st i last0 hnb
    obtain ⟨p, e⟩ := pe
    have hbrk := stepBody_noBrk cfg i totalF bytesTotal st p e (hnb (p, e) (by simp))
    simp only [List.cons_append, runItems, List.length_cons]
    rcases hstep : stepBody cfg i totalF bytesTotal st p e with ⟨st2, brk, evs⟩
    have hbrk2 : brk = none := by rw [hstep] at hbrk; exact hbrk
    subst hbrk2
    simp only
    have h1 := ih rest st2 (i + 1) i (fun x hx => hnb x (by simp [hx]))
    simp only [List.append_eq]
    rw [h1]
    have hidx : i + (pre2.length + 1) = i + 1 + pre2.length := by omega
    rw [hidx]
    simp [List.append_assoc]

/-- C3 (corrected). When the transport raises COMError while downloading a
plan item (not taken by the SKIP branch, cancel unread) after a prefix of
items whose environments never break the loop, the run reports a disconnect,
the current item is marked failed, and every remaining unattempted item is
also counted failed: `failed` equals the failures accumulated over the prefix
plus one for the current item plus the number of unattempted items — not
merely `1 + unattempted` as claimed, since per-item failures from before the
disconnect stay in the count. `copied` and `skipped` are those of the
prefix. -/
theorem C3_disconnect_amended (cfg : XferCfg) (plan : ImportPlanV) (env : XferEnv)
    (p1 p2 : List PlanItemV) (pc : PlanItemV) (l1 l2 : List ItemEnv) (ec : ItemEnv)
    (w : Option ℕ)
    (hplan : plan.items = p1 ++ pc :: p2)
    (henv : env.items = l1 ++ ec :: l2)
    (hlen : l1.length = p1.length)
    (hof : env.openFail = false)
    (hnb : ∀ e ∈ l1, NoBrkEnv e)
    (hct : ec.cancelTop = false)
    (hdl : ec.dl = DlOutcome.raiseCom w)
    (hskip : skipsItem
        (runItems cfg plan.items.length plan.total_size (initState cfg) 1 0
          (p1.zip l1)).1 pc = false) :
    (execute_transfer cfg plan env).disconnected = true ∧
    (execute_transfer cfg plan env).result.failed =
      (runItems cfg plan.items.length plan.total_size (initState cfg) 1 0
        (p1.zip l1)).1.failed + 1 + p2.length ∧
    (execute_transfer cfg plan env).result.copied =
      (runItems cfg plan.items.length plan.total_size (initState cfg) 1 0
        (p1.zip l1)).1.copied ∧
    (execute_transfer cfg plan env).result.skipped =
      (runItems cfg plan.items.length plan.total_size (initState cfg) 1 0
        (p1.zip l1)).1.skipped := by
  have hzip : plan.items.zip env.items =
      (p1.zip l1) ++ ((pc, ec) :: p2.zip l2) := by
    rw [hplan, henv, List.zip_append hlen.symm, List.zip_cons_cons]
  set R1 := runItems cfg plan.items.length plan.total_size (initState cfg) 1 0
    (p1.zip l1)
  have happ := runItems_append_noBrk cfg plan.items.length plan.total_size
      (p1.zip l1) ((pc, ec) :: p2.zip l2) (initState cfg) 1 0
      (fun pe hpe => hnb pe.2 (List.of_mem_zip hpe).2)
  have hcom := stepBody_com cfg (1 + (p1.zip l1).length) plan.items.length
      plan.total_size R1.1 pc ec hct w hdl hskip
  rcases hstep : stepBody cfg (1 + (p1.zip l1).length) plan.items.length
      plan.total_size R1.1 pc ec with ⟨st2, brk, evs⟩
  rw [hstep] at hcom
  have hbrk : brk = some BrkReason.com := hcom.1
  subst hbrk
  have hcont : runItems cfg plan.items.length plan.total_size R1.1
      (1 + (p1.zip l1).length) R1.2.1 ((pc, ec) :: p2.zip l2) =
      (st2, 1 + (p1.zip l1).length, true, evs) := by
    simp only [runItems]
    rw [hstep]
  have hfull : runItems cfg plan.items.length plan.total_size (initState cfg) 1 0
      (plan.items.zip env.items) =
      (st2, 1 + (p1.zip l1).length, true, R1.2.2.2 ++ evs) := by
    rw [hzip, happ, hcont]
  have hf2 : st2.failed = R1.1.failed + 1 := hcom.2.1
  have hc2 : st2.copied = R1.1.copied := hcom.2.2.1
  have hs2 : st2.skipped = R1.1.skipped := hcom.2.2.2
  have hz1len : (p1.zip l1).length = p1.length := by
    rw [List.length_zip, hlen, min_self]
  have hlens : plan.items.length = p1.length + p2.length + 1 := by
    rw [hplan]
    simp only [List.length_append, List.length_cons]
    omega
  refine ⟨?_, ?_, ?_, ?_⟩
  · simp [execute_transfer, hof, hfull]
  · simp [execute_transfer, hof, hfull]
    omega
  · simp [execute_transfer, hof, hfull, hc2]
  · simp [execute_transfer, hof, hfull, hs2]

/-- Witness for C3 on the three-item fixture run: item 1 fails with a
per-item exception, item 2 hits the COMError, item 3 is never attempted. -/
theorem C3_witness :
    (execute_transfer c3cfg c3plan c3env).disconnected = true ∧
    (execute_transfer c3cfg c3plan c3env).result.failed =
      (runItems c3cfg c3plan.items.length c3plan.total_size (initState c3cfg) 1 0
        ([c3pi ("1".data) ("a.jpg".data) 7].zip [c3e1])).1.failed + 1 +
        [c3pi ("3".data) ("c.jpg".data) 5].length ∧
    (execute_transfer c3cfg c3plan c3env).result.copied =
      (runItems c3cfg c3plan.items.length c3plan.total_size (initState c3cfg) 1 0
        ([c3pi ("1".data) ("a.jpg".data) 7].zip [c3e1])).1.copied ∧
    (execute_transfer c3cfg c3plan c3env).result.skipped =
      (runItems c3cfg c3plan.items.length c3plan.total_size (initState c3cfg) 1 0
        ([c3pi ("1".data) ("a.jpg".data) 7].zip [c3e1])).1.skipped :=
  C3_disconnect_amended c3cfg c3plan c3env
    [c3pi ("1".data) ("a.jpg".data) 7] [c3pi ("3".data) ("c.jpg".data) 5]
    (c3pi ("2".data) ("b.jpg".data) 9) [c3e1] [c3e3] c3e2 none
    rfl rfl rfl rfl
    (by
      intro e he
      rw [List.mem_singleton] at he
      subst he
      exact ⟨rfl, rfl, fun w h => DlOutcome.noConfusion h⟩)
    rfl rfl (by decide)

/-- C3 counterexample: in the fixture run the claim's equation
`failed = 1 (current item) + 1 (unattempted item) = 2` is wrong — the
per-item failure from before the disconnect stays in the count, giving 3. -/
theorem C3_counterexample :
    (execute_transfer c3cfg c3plan c3env).disconnected = true ∧
    (execute_transfer c3cfg c3plan c3env).result.failed = 3 ∧
    (execute_transfer c3cfg c3plan c3env).result.failed ≠ 1 + 1 := by
  refine ⟨by decide, by decide, by decide⟩

/-- C10. Every TransferResult satisfies `copied + skipped + failed ≤
total_files`, with `total_files` the number of plan items; and when the run
was neither cancelled nor ended by device disconnection — for an environment
with one behaviour per plan item whose cancel-token reads are those of a
set-once token — every plan item is accounted exactly once:
`copied + skipped + failed = total_files`. -/
theorem C10_count_conservation (cfg : XferCfg) (plan : ImportPlanV) (env : XferEnv) :
    (execute_transfer cfg plan env).result.total_files = plan.items.length ∧
    (execute_transfer cfg plan env).result.copied +
        (execute_transfer cfg plan env).result.skipped +
        (execute_transfer cfg plan env).result.failed ≤
      (execute_transfer cfg plan env).result.total_files ∧
    (CancelMono env → env.items.length = plan.items.length →
      (execute_transfer cfg plan env).result.cancelled = false →
      (execute_transfer cfg plan env).disconnected = false →
      (execute_transfer cfg plan env).result.copied +
          (execute_transfer cfg plan env).result.skipped +
          (execute_transfer cfg plan env).result.failed =
        (execute_transfer cfg plan env).result.total_files) := by
  have hzlen : (plan.items.zip env.items).length ≤ plan.items.length := by
    rw [List.length_zip]
    exact min_le_left _ _
  rcases hR : runItems cfg plan.items.length plan.total_size (initState cfg) 1 0
      (plan.items.zip env.items) with ⟨st1, last, disc, evs⟩
  have hAcct := runItems_acct cfg plan.items.length plan.total_size
      (plan.items.zip env.items) (initState cfg) 1 0
  rw [hR] at hAcct
  refine ⟨rfl, ?_, ?_⟩
  · by_cases hof : env.openFail = true
    · simp [execute_transfer, hof, initState]
    · cases hdisc2 : disc
      · have h1 : acct st1 ≤ acct (initState cfg) + (plan.items.zip env.items).length :=
          hAcct.1 hdisc2
        simp only [acct, initState] at h1
        simp [execute_transfer, hof, hR, hdisc2]
        omega
      · obtain ⟨m, hm1, hm2, hm3⟩ := hAcct.2 hdisc2
        have hm2a : last = 1 + m := hm2
        have hm3a : acct st1 ≤ acct (initState cfg) + m + 1 := hm3
        simp only [acct, initState] at hm3a
        simp [execute_transfer, hof, hR, hdisc2]
        omega
  · intro hmono hlen hcanc hdisc
    have hfc : env.finalCancel = false := hcanc
    have hreads := hmono hfc
    by_cases hof : env.openFail = true
    · have hdt : (execute_transfer cfg plan env).disconnected = true := by
        simp [execute_transfer, hof]
      rw [hdt] at hdisc
      exact absurd hdisc (by simp)
    · have hdiscb : disc = false := by
        have h2 : (execute_transfer cfg plan env).disconnected = disc := by
          simp [execute_transfer, hof, hR]
        rw [h2] at hdisc
        exact hdisc
      have hex := runItems_acct_exact cfg plan.items.length plan.total_size
          (plan.items.zip env.items) (initState cfg) 1 0 ?_ (by rw [hR]; exact hdiscb)
      · rw [hR] at hex
        have hzl : (plan.items.zip env.items).length = plan.items.length := by
          rw [List.length_zip, hlen, min_self]
        have hexa : acct st1 = acct (initState cfg) + (plan.items.zip env.items).length :=
          hex
        rw [hzl] at hexa
        simp only [acct, initState] at hexa
        simp [execute_transfer, hof, hR, hdiscb]
        omega
      · intro e he
        rw [List.mem_map] at he
        obtain ⟨pe, hpe, rfl⟩ := he
        have hz := List.of_mem_zip hpe
        exact hreads pe.2 hz.2

/-- Witness for C10's exact-accounting part on a concrete two-item run: one
item skipped (same size at destination), one failed (download returns false),
none cancelled, no disconnect. -/
theorem C10_witness :
    CancelMono
      { openFail := false,
        items :=
          [{ cancelTop := false, dl := DlOutcome.ok 7, cancelAfter := false,
             convOk := false, convBytes := 0 },
           { cancelTop := false, dl := DlOutcome.retFalse (some 3), cancelAfter := false,
             convOk := false, convBytes := 0 }],
        finalCancel := false } ∧
    (execute_transfer
        { destRoot := ["D:".data, "Dest".data], fs0 := [], canConvert := false,
          hash := fun _ => "h".data }
        { items :=
            [{ item := mkItem ("1".data) ("a.jpg".data) (".jpg".data) 7 none,
               dest_rel_parts := ["a.jpg".data],
               dest_abs_path := ["D:".data, "Dest".data, "a.jpg".data] },
             { item := mkItem ("2".data) ("b.jpg".data) (".jpg".data) 9 none,
               dest_rel_parts := ["b.jpg".data],
               dest_abs_path := ["D:".data, "Dest".data, "b.jpg".data] }],
          preview_paths := [], total_files := 2, total_size := 16 }
        { openFail := false,
          items :=
            [{ cancelTop := false, dl := DlOutcome.ok 7, cancelAfter := false,
               convOk := false, convBytes := 0 },
             { cancelTop := false, dl := DlOutcome.retFalse (some 3), cancelAfter := false,
               convOk := false, convBytes := 0 }],
          finalCancel := false }).result.copied +
      (execute_transfer
        { destRoot := ["D:".data, "Dest".data], fs0 := [], canConvert := false,
          hash := fun _ => "h".data }
        { items :=
            [{ item := mkItem ("1".data) ("a.jpg".data) (".jpg".data) 7 none,
               dest_rel_parts := ["a.jpg".data],
               dest_abs_path := ["D:".data, "Dest".data, "a.jpg".data] },
             { item := mkItem ("2".data) ("b.jpg".data) (".jpg".data) 9 none,
               dest_rel_parts := ["b.jpg".data],
               dest_abs_path := ["D:".data, "Dest".data, "b.jpg".data] }],
          preview_paths := [], total_files := 2, total_size := 16 }
        { openFail := false,
          items :=
            [{ cancelTop := false, dl := DlOutcome.ok 7, cancelAfter := false,
               convOk := false, convBytes := 0 },
             { cancelTop := false, dl := DlOutcome.retFalse (some 3), cancelAfter := false,
               convOk := false, convBytes := 0 }],
          finalCancel := false }).result.skipped +
      (execute_transfer
        { destRoot := ["D:".data, "Dest".data], fs0 := [], canConvert := false,
          hash := fun _ => "h".data }
        { items :=
            [{ item := mkItem ("1".data) ("a.jpg".data) (".jpg".data) 7 none,
               dest_rel_parts := ["a.jpg".data],
               dest_abs_path := ["D:".data, "Dest".data, "a.jpg".data] },
             { item := mkItem ("2".data) ("b.jpg".data) (".jpg".data) 9 none,
               dest_rel_parts := ["b.jpg".data],
               dest_abs_path := ["D:".data, "Dest".data, "b.jpg".data] }],
          preview_paths := [], total_files := 2, total_size := 16 }
        { openFail := false,
          items :=
            [{ cancelTop := false, dl := DlOutcome.ok 7, cancelAfter := false,
               convOk := false, convBytes := 0 },
             { cancelTop := false, dl := DlOutcome.retFalse (some 3), cancelAfter := false,
               convOk := false, convBytes := 0 }],
          finalCancel := false }).result.failed =
      (execute_transfer
        { destRoot := ["D:".data, "Dest".data], fs0 := [], canConvert := false,
          hash := fun _ => "h".data }
        { items :=
            [{ item := mkItem ("1".data) ("a.jpg".data) (".jpg".data) 7 none,
               dest_rel_parts := ["a.jpg".data],
               dest_abs_path := ["D:".data, "Dest".data, "a.jpg".data] },
             { item := mkItem ("2".data) ("b.jpg".data) (".jpg".data) 9 none,
               dest_rel_parts := ["b.jpg".data],
               dest_abs_path := ["D:".data, "Dest".data, "b.jpg".data] }],
          preview_paths := [], total_files := 2, total_size := 16 }
        { openFail := false,
          items :=
            [{ cancelTop := false, dl := DlOutcome.ok 7, cancelAfter := false,
               convOk := false, convBytes := 0 },
             { cancelTop := false, dl := DlOutcome.retFalse (some 3), cancelAfter := false,
               convOk := false, convBytes := 0 }],
          finalCancel := false }).result.total_files := by
  constructor
  · intro _ e he
    fin_cases he <;> exact ⟨rfl, rfl⟩
  · exact (C10_count_conservation
      { destRoot := ["D:".data, "Dest".data], fs0 := [], canConvert := false,
        hash := fun _ => "h".data }
      { items :=
          [{ item := mkItem ("1".data) ("a.jpg".data) (".jpg".data) 7 none,
             dest_rel_parts := ["a.jpg".data],
             dest_abs_path := ["D:".data, "Dest".data, "a.jpg".data] },
           { item := mkItem ("2".data) ("b.jpg".data) (".jpg".data) 9 none,
             dest_rel_parts := ["b.jpg".data],
             dest_abs_path := ["D:".data, "Dest".data, "b.jpg".data] }],
        preview_paths := [], total_files := 2, total_size := 16 }
      { openFail := false,
        items :=
          [{ cancelTop := false, dl := DlOutcome.ok 7, cancelAfter := false,
             convOk := false, convBytes := 0 },
           { cancelTop := false, dl := DlOutcome.retFalse (some 3), cancelAfter := false,
             convOk := false, convBytes := 0 }],
        finalCancel := false }).2.2
      (by intro _ e he; fin_cases he <;> exact ⟨rfl, rfl⟩)
      (by decide) (by decide) (by decide)

end ImportGalery
